import Mathlib

/-!
A verification model of the punchcard AppSync resolver-pipeline compiler.

The TypeScript sources embedded here:
  * `packages/@punchcard/shape/lib/traits.ts` — `Optional` trait, `isOptional`, `optional`.
  * `packages/punchcard/lib/appsync/api/api.ts` — the unit-or-pipeline `Api`:
    `parseType`, `parseInputType`, `generateTypeSignature`, `interpretResolverPipeline`'s
    per-statement `interpret` closure, the resolver `config` assembly, `getTypeAnnotation`.
  * `packages/punchcard/lib/appsync/lang/expression.ts` — `VExpression` combinators and
    `VExpression.json`.
  * `packages/punchcard/lib/appsync/intepreter/frame.ts` — `Frame` (indent bookkeeping).
  * the legacy pipeline-always `Api` (`Legacy` namespace below): `parseIf`, `parseBlock`,
    `generateInputTypeSignature`, `isScalar`, its own `getTypeAnnotation`.

The repository's `appsync/api/interpreter.ts` (class `InterpreterState`, the
`interpretProgram` driver and the new-variant `parseIf`) is not part of the sources
available here; those pieces are modelled from the specification and are marked
`Modelled from the spec:` in their doc comments.

Modelling conventions:
  * `VExpression` values in the source are functions mutating a render context; here they
    are a closed syntax tree (`VExpr`) of the combinators the compiler actually builds
    (`text` / `indent` / `unindent` / `line` / `concat`), interpreted by `writeExpr`.
  * generator programs are free-monad style trees (`Program`): a program either finishes
    with an optional return value or yields a statement together with a continuation
    expecting the interpreter's resume value;
  * recursive interpreters take a `fuel : Nat` argument to make termination evident;
    claims are stated conditionally on a successful (`Except.ok`) run;
  * TypeScript `throw` is modelled with `Except.error`, carrying the thrown message.
-/

namespace Punchcard

/-! ## Shape type system (`@punchcard/shape`) -/

/-- Metadata attached to a shape via traits (`Meta.apply`): the `Optional` trait's
`nullable: true` flag (traits.ts) and the `graphqlType` hint read by `getTypeAnnotation`. -/
structure ShapeMeta where
  nullable : Bool := false
  graphqlType : Option String := none
deriving DecidableEq

/-- Shapes of the `@punchcard/shape` type system: scalars, collections, records,
unions, enums and function shapes.  Named shapes carry an optional FQN. -/
inductive Shape where
| stringS (m : ShapeMeta)
| integerS (m : ShapeMeta)
| numberS (m : ShapeMeta)
| boolS (m : ShapeMeta)
| timestampS (m : ShapeMeta)
| binaryS (m : ShapeMeta)
| anyS (m : ShapeMeta)
| nothingS (m : ShapeMeta)
| arrayS (m : ShapeMeta) (items : Shape)
| setS (m : ShapeMeta) (items : Shape)
| mapS (m : ShapeMeta) (values : Shape)
| recordS (m : ShapeMeta) (fqn : Option String) (members : List (String × Shape))
| unionS (m : ShapeMeta) (fqn : Option String) (items : List Shape)
| enumS (m : ShapeMeta) (fqn : Option String) (values : List String)
| functionS (m : ShapeMeta) (args : List (String × Shape)) (returns : Shape)

/-- The metadata decoration of a shape (what `Meta.get` reads). -/
def Shape.meta : Shape → ShapeMeta
| .stringS m | .integerS m | .numberS m | .boolS m | .timestampS m | .binaryS m
| .anyS m | .nothingS m | .arrayS m _ | .setS m _ | .mapS m _
| .recordS m _ _ | .unionS m _ _ | .enumS m _ _ | .functionS m _ _ => m

/-- The FQN of a shape, when it has one. -/
def Shape.FQNof : Shape → Option String
| .recordS _ fqn _ => fqn
| .unionS _ fqn _ => fqn
| .enumS _ fqn _ => fqn
| _ => none

/-- Replace the metadata of a shape (the effect of `Meta.apply` on the decoration). -/
def Shape.withMeta (m : ShapeMeta) : Shape → Shape
| .stringS _ => .stringS m
| .integerS _ => .integerS m
| .numberS _ => .numberS m
| .boolS _ => .boolS m
| .timestampS _ => .timestampS m
| .binaryS _ => .binaryS m
| .anyS _ => .anyS m
| .nothingS _ => .nothingS m
| .arrayS _ i => .arrayS m i
| .setS _ i => .setS m i
| .mapS _ v => .mapS m v
| .recordS _ f ms => .recordS m f ms
| .unionS _ f is => .unionS m f is
| .enumS _ f vs => .enumS m f vs
| .functionS _ as r => .functionS m as r

/-- traits.ts `isOptional`: a shape is optional iff its decoration says `nullable: true`. -/
def isOptional (s : Shape) : Bool := s.meta.nullable

/-- traits.ts `optional`: decorate a shape with the `Optional` trait (`{ nullable: true }`). -/
def optional (s : Shape) : Shape := s.withMeta { s.meta with nullable := true }

mutual

/-- Structural equality of shapes (the `.equals` used when unifying branch return types). -/
def Shape.beq : Shape → Shape → Bool
| .stringS m, .stringS m' => m == m'
| .integerS m, .integerS m' => m == m'
| .numberS m, .numberS m' => m == m'
| .boolS m, .boolS m' => m == m'
| .timestampS m, .timestampS m' => m == m'
| .binaryS m, .binaryS m' => m == m'
| .anyS m, .anyS m' => m == m'
| .nothingS m, .nothingS m' => m == m'
| .arrayS m i, .arrayS m' i' => m == m' && Shape.beq i i'
| .setS m i, .setS m' i' => m == m' && Shape.beq i i'
| .mapS m v, .mapS m' v' => m == m' && Shape.beq v v'
| .recordS m f ms, .recordS m' f' ms' => m == m' && f == f' && Shape.beqMembers ms ms'
| .unionS m f is, .unionS m' f' is' => m == m' && f == f' && Shape.beqList is is'
| .enumS m f vs, .enumS m' f' vs' => m == m' && f == f' && vs == vs'
| .functionS m as r, .functionS m' as' r' =>
  m == m' && Shape.beqMembers as as' && Shape.beq r r'
| _, _ => false

/-- Pointwise structural equality of shape lists. -/
def Shape.beqList : List Shape → List Shape → Bool
| [], [] => true
| a :: as, b :: bs => Shape.beq a b && Shape.beqList as bs
| _, _ => false

/-- Pointwise structural equality of named member lists. -/
def Shape.beqMembers : List (String × Shape) → List (String × Shape) → Bool
| [], [] => true
| (n, a) :: as, (n', b) :: bs => n == n' && Shape.beq a b && Shape.beqMembers as bs
| _, _ => false

end

instance : BEq Shape := ⟨Shape.beq⟩

/-! ### Shape guards (`ShapeGuards`) -/

def ShapeGuards.isArrayShape : Shape → Bool
| .arrayS _ _ => true | _ => false

def ShapeGuards.isSetShape : Shape → Bool
| .setS _ _ => true | _ => false

def ShapeGuards.isMapShape : Shape → Bool
| .mapS _ _ => true | _ => false

def ShapeGuards.isCollectionShape (s : Shape) : Bool :=
  ShapeGuards.isArrayShape s || ShapeGuards.isSetShape s || ShapeGuards.isMapShape s

def ShapeGuards.isStringShape : Shape → Bool
| .stringS _ => true | _ => false

def ShapeGuards.isTimestampShape : Shape → Bool
| .timestampS _ => true | _ => false

def ShapeGuards.isAnyShape : Shape → Bool
| .anyS _ => true | _ => false

def ShapeGuards.isBoolShape : Shape → Bool
| .boolS _ => true | _ => false

def ShapeGuards.isIntegerShape : Shape → Bool
| .integerS _ => true | _ => false

/-- `isNumberShape` covers all numeric shapes (integers included). -/
def ShapeGuards.isNumberShape : Shape → Bool
| .integerS _ => true | .numberS _ => true | _ => false

def ShapeGuards.isNumericShape (s : Shape) : Bool := ShapeGuards.isNumberShape s

def ShapeGuards.isRecordShape : Shape → Bool
| .recordS _ _ _ => true | _ => false

def ShapeGuards.isUnionShape : Shape → Bool
| .unionS _ _ _ => true | _ => false

def ShapeGuards.isEnumShape : Shape → Bool
| .enumS _ _ _ => true | _ => false

def ShapeGuards.isFunctionShape : Shape → Bool
| .functionS _ _ _ => true | _ => false

def ShapeGuards.isNothingShape : Shape → Bool
| .nothingS _ => true | _ => false

/-! ## Frame (`appsync/intepreter/frame.ts`) -/

/-- The render frame of the earlier frame-based interpreter: an indentation counter and
a token buffer.  (`children` / `lexicalScope` / id generator are not needed by any claim
and are omitted.)  `_indent` is modelled as an `Int`, exactly as the source first
decrements and then checks for a negative value. -/
structure Frame where
  indentVal : Int := 0
  tokens : List String := []

/-- frame.ts `indent()`: increment the indentation counter. -/
def Frame.indent (f : Frame) : Frame := { f with indentVal := f.indentVal + 1 }

/-- frame.ts `unindent()`: decrement the indentation counter; if it becomes negative,
`throw new Error('indent underflow')`. -/
def Frame.unindent (f : Frame) : Except String Frame :=
  let v := f.indentVal - 1
  if v < 0 then .error ("indent underflow") else .ok { f with indentVal := v }

/-- frame.ts `print(text)`: push a token. -/
def Frame.print (f : Frame) (text : String) : Frame :=
  { f with tokens := f.tokens ++ [text] }

/-- An indent / unindent directive, for stating balance properties of a frame. -/
inductive FrameOp where
| ind
| unind
deriving DecidableEq

/-- Run a sequence of indent/unindent directives against a frame. -/
def runFrameOps : List FrameOp → Frame → Except String Frame
| [], f => .ok f
| .ind :: ops, f => runFrameOps ops f.indent
| .unind :: ops, f =>
  match f.unindent with
  | .error e => .error e
  | .ok f' => runFrameOps ops f'

/-! ## Expressions and the interpreter render state

The source's `VExpression` is a wrapper around `visit : InterpreterState → InterpreterState | void`.
The compiler only ever constructs expressions out of the five primitive combinators
`text` / `indent` / `unindent` / `line` / `concat`, so expressions are embedded as the
syntax tree of those combinators and `writeExpr` gives each constructor its `visit` action. -/

/-- The combinator tree of `VExpression` (expression.ts). -/
inductive VExpr where
| text (s : String)
| indentE
| unindentE
| lineE
| concatE (parts : List VExpr)

/-- Modelled from the spec: the mutable compilation state of `interpreter.ts`
(`InterpreterState`), holding the fresh-identifier counter, the indentation depth and the
accumulated template token buffer. -/
structure InterpreterState where
  idCounter : Nat := 0
  indentDepth : Nat := 0
  template : List String := []

/-- Modelled from the spec: allocate a fresh identifier `{prefix}{n}` from the monotonically
increasing counter (never reused). -/
def InterpreterState.newId (st : InterpreterState) (pfx : String) : String × InterpreterState :=
  (pfx ++ toString (st.idCounter + 1), { st with idCounter := st.idCounter + 1 })

/-- Push a raw token onto the template buffer. -/
def InterpreterState.push (st : InterpreterState) (s : String) : InterpreterState :=
  { st with template := st.template ++ [s] }

/-- Modelled from the spec: `writeLine` starts a new line and auto-indents two spaces per
indentation level (as `Frame.printLine` does in frame.ts). -/
def InterpreterState.writeLine (st : InterpreterState) : InterpreterState :=
  st.push ("\n" ++ String.join (List.replicate st.indentDepth "  "))

mutual

/-- The `visit` action of each expression combinator against the render state:
`text` appends its token verbatim, `indent`/`unindent` move the indentation depth
(underflow is the fatal `indent underflow` fault), `line` breaks and auto-indents,
`concat` visits its parts in order. -/
def writeExpr (st : InterpreterState) : VExpr → Except String InterpreterState
| .text s => .ok (st.push s)
| .indentE => .ok { st with indentDepth := st.indentDepth + 1 }
| .unindentE =>
  if st.indentDepth = 0 then .error ("indent underflow")
  else .ok { st with indentDepth := st.indentDepth - 1 }
| .lineE => .ok st.writeLine
| .concatE parts => writeMany st parts

/-- Visit a list of expressions in order. -/
def writeMany (st : InterpreterState) : List VExpr → Except String InterpreterState
| [] => .ok st
| e :: es =>
  match writeExpr st e with
  | .error err => .error err
  | .ok st' => writeMany st' es

end

/-- Modelled from the spec: `renderTemplate` renders the buffered tokens to a string and
clears the buffer (used by the `call` lowering to flush a stage's request template). -/
def InterpreterState.renderTemplate (st : InterpreterState) : String × InterpreterState :=
  (String.join st.template, { st with template := [] })

/-- Render a closed expression against a fresh state (what `.visit(ctx).text` yields). -/
def renderExpr (e : VExpr) : Except String String :=
  match writeExpr {} e with
  | .error err => .error err
  | .ok st => .ok (String.join st.template)

/-! ## VTL objects -/

/-- A typed template value (`VObject`): a shape together with the expression that
renders its reference. -/
structure VObj where
  type : Shape
  expr : VExpr

/-- `VObject.fromExpr` / `VObject.ofExpression`. -/
def VObject.fromExpr (t : Shape) (e : VExpr) : VObj := ⟨t, e⟩

/-- `VObject.getType`. -/
def VObject.getType (o : VObj) : Shape := o.type

/-- `VObject.getExpr`. -/
def VObject.getExpr (o : VObj) : VExpr := o.expr

/-- `new VNothing(VExpression.text('null'))`. -/
def vNothingNull : VObj := ⟨.nothingS {}, .text ("null")⟩

/-! ## `VExpression` combinators (expression.ts) -/

/-- An argument to `VExpression.call`: strings are quoted, numbers rendered base-10,
booleans by their literal text, expressions and objects rendered recursively. -/
inductive CallArg where
| exprA (e : VExpr)
| objA (o : VObj)
| strA (s : String)
| numA (n : Int)
| boolA (b : Bool)

/-- The coercion `toArgs` applies to one call argument. -/
def CallArg.render : CallArg → VExpr
| .exprA e => e
| .objA o => o.expr
| .strA s => .text ("\"" ++ s ++ "\"")
| .numA n => .text (toString n)
| .boolA b => .text (toString b)

/-- expression.ts `toArgs`: render each argument, appending `,` to all but the last. -/
def VExpression.toArgs : List CallArg → List VExpr
| [] => []
| [a] => [a.render]
| a :: rest => .concatE [a.render, .text (",")] :: VExpression.toArgs rest

/-- expression.ts `VExpression.call(functionName, args)`:
`functionName(arg0,arg1,...)`. -/
def VExpression.call (functionName : String) (args : List CallArg) : VExpr :=
  .concatE ([.text functionName, .text ("(")] ++ VExpression.toArgs args ++ [.text (")")])

/-- expression.ts `VExpression.block(expr)`: indent, line, expr, unindent, line. -/
def VExpression.block (e : VExpr) : VExpr :=
  .concatE [.indentE, .lineE, e, .unindentE, .lineE]

/-- A JSON-able literal (`VExpressionLiteral`): an already-built expression, a typed
object, a primitive, a date, an array or a plain object.  `other` stands for any
runtime value of a type the serializer does not support (functions, symbols, ...),
identified by the text its interpolation into the error message produces. -/
inductive Lit where
| exprL (e : VExpr)
| objL (o : VObj)
| strL (s : String)
| numL (n : Int)
| boolL (b : Bool)
| nullL
| dateL (iso : String)
| arrL (items : List Lit)
| objectL (fields : List (String × Lit))
| other (repr : String)

mutual

/-- expression.ts `VExpression.json`: recursively render a literal as an inline
JSON-like expression.  Strings are wrapped in quotes verbatim (no escaping); an
unsupported runtime value throws `could not convert literal type to expression: ...`. -/
def VExpression.json : Lit → Except String VExpr
| .exprL e => .ok e
| .objL o => .ok (VExpression.call "$util.toJson" [.objA o])
| .strL s => .ok (.text ("\"" ++ s ++ "\""))
| .numL n => .ok (.text (toString n))
| .boolL b => .ok (.text (toString b))
| .nullL => .ok (.text ("null"))
| .dateL iso => .ok (.text ("\"" ++ iso ++ "\""))
| .arrL items =>
  match VExpression.jsonItems items with
  | .error e => .error e
  | .ok parts =>
    .ok (.concatE ([.text ("["), .indentE, .lineE] ++ parts ++ [.unindentE, .lineE, .text ("]")]))
| .objectL fields =>
  match VExpression.jsonFields fields with
  | .error e => .error e
  | .ok parts =>
    .ok (.concatE ([.text ("\x7b"), .indentE, .lineE] ++ parts
      ++ [.unindentE, .lineE, .text ("\x7d")]))
| .other r => .error ("could not convert literal type to expression: " ++ r)

/-- Array items: each item's rendering followed by `,` and a line break for all but the
last item (the last gets the empty expression). -/
def VExpression.jsonItems : List Lit → Except String (List VExpr)
| [] => .ok []
| [x] =>
  match VExpression.json x with
  | .error e => .error e
  | .ok jx => .ok [.concatE [jx, .text ("")]]
| x :: rest =>
  match VExpression.json x with
  | .error e => .error e
  | .ok jx =>
    match VExpression.jsonItems rest with
    | .error e => .error e
    | .ok rest' => .ok (.concatE [jx, .concatE [.text (","), .lineE]] :: rest')

/-- Object members: `"key": <recursive>` pairs, comma-and-line separated. -/
def VExpression.jsonFields : List (String × Lit) → Except String (List VExpr)
| [] => .ok []
| [(n, x)] =>
  match VExpression.json x with
  | .error e => .error e
  | .ok jx => .ok [.concatE [.text ("\"" ++ n ++ "\": "), jx, .text ("")]]
| (n, x) :: rest =>
  match VExpression.json x with
  | .error e => .error e
  | .ok jx =>
    match VExpression.jsonFields rest with
    | .error e => .error e
    | .ok rest' =>
      .ok (.concatE [.text ("\"" ++ n ++ "\": "), jx, .concatE [.text (","), .lineE]] :: rest')

end

/-! ## `getTypeAnnotation` (api.ts, lines 481–522) -/

/-- The `Kind` discriminator string of a shape (used in error messages). -/
def Shape.kindName : Shape → String
| .stringS _ => "stringShape"
| .integerS _ => "integerShape"
| .numberS _ => "numberShape"
| .boolS _ => "boolShape"
| .timestampS _ => "timestampShape"
| .binaryS _ => "binaryShape"
| .anyS _ => "anyShape"
| .nothingS _ => "nothingShape"
| .arrayS _ _ => "arrayShape"
| .setS _ _ => "setShape"
| .mapS _ _ => "mapShape"
| .recordS _ _ _ => "recordShape"
| .unionS _ _ _ => "unionShape"
| .enumS _ _ _ => "enumShape"
| .functionS _ _ _ => "functionShape"

/-- The items of a union shape (`UnionShape.Items`). -/
def Shape.unionItems : Shape → List Shape
| .unionS _ _ items => items
| _ => []

mutual

/-- api.ts `getTypeAnnotation`: the SDL type of a shape.  Reads the `graphqlType`
metadata, computes nullability with `isOptional`, unwraps a nullable union to its first
non-nothing alternative (the source's `shape.Items.find(i => !isNothingShape(i))!`,
whose possible `undefined` is modelled as `none`), then appends `!` unless nullable. -/
def getTypeAnnotation (fuel : Nat) (shape : Shape) : Except String String :=
  match fuel with
  | 0 => .error ("out of fuel")
  | fuel + 1 =>
    let graphqlType := shape.meta.graphqlType
    let isNullable := isOptional shape
    let unwrapped : Option Shape :=
      if isNullable && ShapeGuards.isUnionShape shape then
        shape.unionItems.find? (fun i => !ShapeGuards.isNothingShape i)
      else some shape
    match getTypeName fuel graphqlType unwrapped with
    | .error e => .error e
    | .ok name => .ok (name ++ (if isNullable then "" else "!"))

/-- api.ts `getTypeName` (closure inside `getTypeAnnotation`): a `graphqlType` metadata
string wins; otherwise dispatch on the shape's kind.  The source's guard chain is
rendered as a constructor match (the guards are mutually exclusive); a `none` shape
models the source dereferencing the `undefined` produced by an all-nothing union. -/
def getTypeName (fuel : Nat) (graphqlType : Option String) (shape : Option Shape) :
    Except String String :=
  match fuel with
  | 0 => .error ("out of fuel")
  | fuel + 1 =>
    match graphqlType with
    | some g => .ok g
    | none =>
      match shape with
      | none => .error ("cannot read the kind of undefined")
      | some s =>
        match s with
        | .arrayS _ items =>
          match getTypeAnnotation fuel items with
          | .error e => .error e
          | .ok inner => .ok ("[" ++ inner ++ "]")
        | .setS _ items =>
          match getTypeAnnotation fuel items with
          | .error e => .error e
          | .ok inner => .ok ("[" ++ inner ++ "]")
        | .mapS _ _ => .error ("maps are not supported in GraphQL - use a RecordType instead")
        | .stringS _ => .ok ("String")
        | .timestampS _ => .ok ("AWSDateTime")
        | .anyS _ => .ok ("AWSJSON")
        | .boolS _ => .ok ("Boolean")
        | .integerS _ => .ok ("Int")
        | .numberS _ => .ok ("Float")
        | .recordS _ (some f) _ => .ok f
        | .recordS _ none _ => .error
            ("Only records with a FQN are supported as types in Graphql. class A extends Record('FQN', \x7b .. \x7d) \x7b\x7d")
        | .unionS _ (some f) _ => .ok f
        | .enumS _ (some f) _ => .ok f
        | s => .error ("shape type " ++ s.kindName ++ " is not supported by GraphQL")

end

/-- Characters admissible in a GraphQL identifier (`[_0-9A-Za-z]`). -/
def isIdentChar (c : Char) : Bool :=
  c = '_' || ('0' ≤ c && c ≤ '9') || ('A' ≤ c && c ≤ 'Z') || ('a' ≤ c && c ≤ 'z')

/-- A string made only of identifier characters, nonempty. -/
def identOnly (s : String) : Bool := !s.data.isEmpty && s.data.all isIdentChar

/-- An optional name is well formed when present names are identifier-only. -/
def nameOk : Option String → Bool
| none => true
| some s => identOnly s

mutual

/-- Every FQN and `graphqlType` metadata hint occurring in a shape is identifier-only
(as GraphQL SDL requires of type names). -/
def wfNames : Shape → Bool
| .stringS m | .integerS m | .numberS m | .boolS m | .timestampS m
| .binaryS m | .anyS m | .nothingS m => nameOk m.graphqlType
| .arrayS m items | .setS m items | .mapS m items => nameOk m.graphqlType && wfNames items
| .recordS m fqn members => nameOk m.graphqlType && nameOk fqn && wfNamesMembers members
| .unionS m fqn items => nameOk m.graphqlType && nameOk fqn && wfNamesList items
| .enumS m fqn _ => nameOk m.graphqlType && nameOk fqn
| .functionS m args returns => nameOk m.graphqlType && wfNamesMembers args && wfNames returns

/-- `wfNames` over a list of shapes. -/
def wfNamesList : List Shape → Bool
| [] => true
| s :: ss => wfNames s && wfNamesList ss

/-- `wfNames` over named members. -/
def wfNamesMembers : List (String × Shape) → Bool
| [] => true
| (_, s) :: ss => wfNames s && wfNamesMembers ss

end

/-! ## Schema synthesis (api.ts `parseType` / `parseInputType` / `generateTypeSignature`) -/

/-- The resolver metadata attached to a field by trait fragments: the rendered auth
directives (`toAuthDirectives(auth)`, an external collaborator, carried as data) and
the mutation field names of an `@aws_subscribe` subscription. -/
structure ResolverMeta where
  auth : Option (List String) := none
  subscribe : Option (List String) := none

/-- A record's externally registered type spec: its shape, field shapes and per-field
resolver metadata (type-system.ts `TypeSpec`). -/
structure TypeSpec where
  type : Shape
  fields : List (String × Shape)
  resolvers : List (String × ResolverMeta) := []

/-- api.ts line 245: `@aws_subscribe(mutations:["f1","f2"])`. -/
def toSubscribeDirective (fields : List String) : String :=
  "@aws_subscribe(mutations:[" ++ String.intercalate "," (fields.map (fun s => "\"" ++ s ++ "\"")) ++ "])"

/-- The directive accumulation of `interpretResolverPipeline` (api.ts lines 238–246):
per resolver field, the auth directives followed by the subscription directive.
(The resolver/pipeline emission itself is modelled separately, per field, below;
it writes no SDL block and does not touch the seen set.) -/
def interpretResolverDirectives (ts : TypeSpec) : List (String × List String) :=
  ts.resolvers.map (fun fr =>
    (fr.1, (fr.2.auth.getD []) ++
      (match fr.2.subscribe with
       | some fs => [toSubscribeDirective fs]
       | none => [])))

/-- The argument list rendering of a function field:
`arg: Annotation` joined by `,`. -/
def argsSignature (fuel : Nat) : List (String × Shape) → Except String (List String)
| [] => .ok []
| (argName, argShape) :: rest =>
  match getTypeAnnotation fuel argShape with
  | .error e => .error e
  | .ok ann =>
    match argsSignature fuel rest with
    | .error e => .error e
    | .ok rest' => .ok ((argName ++ ": " ++ ann) :: rest')

/-- One field line of a type block (api.ts lines 219–228): function fields render an
argument list and the return annotation, plain fields just the annotation; accumulated
directives are appended on an indented following line. -/
def fieldSignature (fuel : Nat) (directives : List (String × List String))
    (fieldName : String) (fieldShape : Shape) : Except String String :=
  let fieldDirectives := String.intercalate "\n    " ((directives.lookup fieldName).getD [])
  let suffix := if fieldDirectives = "" then "" else "\n    " ++ fieldDirectives
  match fieldShape with
  | .functionS _ args returns =>
    match argsSignature fuel args with
    | .error e => .error e
    | .ok argSigs =>
      match getTypeAnnotation fuel returns with
      | .error e => .error e
      | .ok ret =>
        .ok ("  " ++ fieldName ++ "(" ++ String.intercalate "," argSigs ++ "): " ++ ret ++ suffix)
  | _ =>
    match getTypeAnnotation fuel fieldShape with
    | .error e => .error e
    | .ok ann => .ok ("  " ++ fieldName ++ ": " ++ ann ++ suffix)

/-- All field lines of a type block. -/
def fieldSignatures (fuel : Nat) (directives : List (String × List String)) :
    List (String × Shape) → Except String (List String)
| [] => .ok []
| (n, s) :: rest =>
  match fieldSignature fuel directives n s with
  | .error e => .error e
  | .ok line =>
    match fieldSignatures fuel directives rest with
    | .error e => .error e
    | .ok rest' => .ok (line :: rest')

/-- api.ts `generateTypeSignature`: the `type FQN { ... }` SDL block. -/
def generateTypeSignature (fuel : Nat) (typeSpec : TypeSpec)
    (directives : List (String × List String)) : Except String String :=
  match fieldSignatures fuel directives typeSpec.fields with
  | .error e => .error e
  | .ok lines =>
    .ok ("type " ++ ((Shape.FQNof typeSpec.type).getD "undefined") ++ " \x7b\n"
      ++ String.intercalate "\n" lines ++ "\n\x7d")

/-- The mutable synthesis state threaded through `parseType` / `parseInputType`: the
shared `seenDataTypes` set (modelled as the insertion-ordered list of its elements)
and the SDL `blocks` list. -/
structure SchemaState where
  seenDataTypes : List String := []
  blocks : List String := []
deriving DecidableEq

mutual

/-- api.ts `parseType` (lines 145–188): discover the data types reachable from a shape
and emit one SDL block per first visit, keyed by FQN in `seenDataTypes`.  Arrays recurse
into items; records look up their `TypeSpec` in the index, emit a `type` block and
recurse into fields; unions recurse into items and (unless optional) emit a `union`
block; function shapes send arguments through `parseInputType` and recurse into the
return shape; enums emit an `enum` block.  All other shapes are left alone. -/
def parseType (fuel : Nat) (index : List (String × TypeSpec)) (shape : Shape)
    (st : SchemaState) : Except String SchemaState :=
  match fuel with
  | 0 => .error ("out of fuel")
  | fuel + 1 =>
    match shape with
    | .arrayS _ items => parseType fuel index items st
    | .recordS _ fqn _ =>
      match fqn with
      | none => .error ("un-named record types are not supported")
      | some f =>
        if st.seenDataTypes.contains f then .ok st
        else
          let st := { st with seenDataTypes := st.seenDataTypes ++ [f] }
          match index.lookup f with
          | none => .error ("could not find type " ++ f ++ " in the TypeIndex")
          | some typeSpec =>
            let directives := interpretResolverDirectives typeSpec
            match generateTypeSignature fuel typeSpec directives with
            | .error e => .error e
            | .ok block =>
              parseTypeList fuel index (typeSpec.fields.map (fun fs => fs.2))
                { st with blocks := st.blocks ++ [block] }
    | .unionS m fqn items =>
      match parseTypeList fuel index items st with
      | .error e => .error e
      | .ok st =>
        if !isOptional (.unionS m fqn items) then
          match fqn with
          | none => .error ("un-named union types are not supported")
          | some f =>
            if st.seenDataTypes.contains f then .ok st
            else
              .ok { st with
                seenDataTypes := st.seenDataTypes ++ [f],
                blocks := st.blocks ++
                  ["union " ++ f ++ " = " ++
                    String.intercalate " | " (items.filterMap Shape.FQNof) ++ ";"] }
        else .ok st
    | .functionS _ args returns =>
      match parseInputTypeList fuel index (args.map (fun a => a.2)) st with
      | .error e => .error e
      | .ok st => parseType fuel index returns st
    | .enumS _ fqn values =>
      match fqn with
      | none => .error ("un-named enum types are not supported")
      | some f =>
        if st.seenDataTypes.contains f then .ok st
        else
          .ok { st with
            seenDataTypes := st.seenDataTypes ++ [f],
            blocks := st.blocks ++
              ["enum " ++ f ++ " \x7b\n  " ++ String.intercalate "\n  " values ++ "\n\x7d"] }
    | _ => .ok st

/-- `parseType` over a list of shapes (the `forEach` recursions). -/
def parseTypeList (fuel : Nat) (index : List (String × TypeSpec)) (shapes : List Shape)
    (st : SchemaState) : Except String SchemaState :=
  match fuel with
  | 0 => .error ("out of fuel")
  | fuel + 1 =>
    match shapes with
    | [] => .ok st
    | s :: ss =>
      match parseType fuel index s st with
      | .error e => .error e
      | .ok st => parseTypeList fuel index ss st

/-- One member line of an input block. -/
def inputMemberLines (fuel : Nat) : List (String × Shape) → Except String (List String)
| [] => .ok []
| (fieldName, fieldShape) :: rest =>
  match getTypeAnnotation fuel fieldShape with
  | .error e => .error e
  | .ok ann =>
    match inputMemberLines fuel rest with
    | .error e => .error e
    | .ok rest' => .ok (("  " ++ fieldName ++ ": " ++ ann) :: rest')

/-- api.ts `parseInputType` (lines 190–215): records synthesize an `input` block after
recursing into their members (sharing `seenDataTypes`); collections recurse into their
items; non-optional unions are rejected; optional unions recurse into their items;
enums are forwarded to `parseType`. -/
def parseInputType (fuel : Nat) (index : List (String × TypeSpec)) (shape : Shape)
    (st : SchemaState) : Except String SchemaState :=
  match fuel with
  | 0 => .error ("out of fuel")
  | fuel + 1 =>
    match shape with
    | .recordS _ fqn members =>
      match fqn with
      | none => .error ("un-named input type")
      | some f =>
        if st.seenDataTypes.contains f then .ok st
        else
          let st := { st with seenDataTypes := st.seenDataTypes ++ [f] }
          match parseInputTypeList fuel index (members.map (fun ms => ms.2)) st with
          | .error e => .error e
          | .ok st =>
            match inputMemberLines fuel members with
            | .error e => .error e
            | .ok lines =>
              .ok { st with blocks := st.blocks ++
                ["input " ++ f ++ " \x7b\n" ++ String.intercalate "\n" lines ++ "\n\x7d"] }
    | .arrayS _ items => parseInputType fuel index items st
    | .setS _ items => parseInputType fuel index items st
    | .mapS _ values => parseInputType fuel index values st
    | .unionS m fqn items =>
      if !isOptional (.unionS m fqn items) then
        .error ("union types not supported as input types")
      else parseInputTypeList fuel index items st
    | .enumS m fqn values => parseType fuel index (.enumS m fqn values) st
    | _ => .ok st

/-- `parseInputType` over a list of shapes. -/
def parseInputTypeList (fuel : Nat) (index : List (String × TypeSpec)) (shapes : List Shape)
    (st : SchemaState) : Except String SchemaState :=
  match fuel with
  | 0 => .error ("out of fuel")
  | fuel + 1 =>
    match shapes with
    | [] => .ok st
    | s :: ss =>
      match parseInputType fuel index s st with
      | .error e => .error e
      | .ok st => parseInputTypeList fuel index ss st

end

/-! ## Field resolver interpretation (api.ts `interpretResolverPipeline`, lines 234–447)

The statement vocabulary and the generator protocol live in the repository's
`lang/statement.ts` / `api/interpreter.ts`, which are not among the sources here; the
`Program` tree below is the spec's §3 statement model (a statement stream where each
yielded statement's continuation receives the interpreter's lowered resume value),
and `interpretProgram` is the spec's §4.2 driver loop.  The per-statement lowering
`interpret` is translated from api.ts lines 274–350. -/

/-- Modelled from the spec: `InterpreterState.stash` — bind a value to a fresh (or
caller-chosen) template variable with `#set(...)` and return the reference text
(`$context.stash.<name>`, or the local `$<name>` when marked local-only). -/
def InterpreterState.stash (st : InterpreterState) (value : VObj) (id : Option String)
    (localOnly : Bool) : Except String (String × InterpreterState) :=
  let named : String × InterpreterState :=
    match id with
    | some n => (n, st)
    | none => st.newId "var"
  let ref := if localOnly then "$" ++ named.1 else "$context.stash." ++ named.1
  match writeExpr (named.2.push ("#set(" ++ ref ++ " = ")) value.expr with
  | .error e => .error e
  | .ok st => .ok (ref, (st.push (")")).writeLine)

mutual

/-- Modelled from the spec: the statement-stream program of a field resolver.  A
program either finishes with an optional overall result, or yields one statement and
continues with the interpreter's resume value. -/
inductive Program where
| done (result : Option VObj)
| yieldS (stmt : Stmt) (k : Option VObj → Program)

/-- The statement vocabulary consumed by `interpret` (api.ts lines 274–350):
stash / write / for-loop / if-chain / call. -/
inductive Stmt where
| stashS (value : VObj) (id : Option String) (localOnly : Bool)
| writeS (expressions : List VExpr)
| forLoop (list : VObj) (thn : VObj → VObj → VObj → Program)
| ifS (condition : VObj) (thn : Program) (elseB : Option ElseChain)
| callS (request : VObj) (responseType : Shape)

/-- The chained else-if / else branches of an if statement. -/
inductive ElseChain where
| elseIf (condition : VObj) (thn : Program) (next : Option ElseChain)
| els (thn : Program)
end

/-- One registered pipeline stage (the `CfnFunctionConfigurationProps` the compiler
pushes per `call`): stage name, request/response mapping templates and the data source
reference (the data source is created under the stage's name). -/
structure FnConfig where
  name : String
  requestMappingTemplate : String
  responseMappingTemplate : String
  dataSourceName : String
deriving DecidableEq

/-- The per-field compilation state: the interpreter render state plus the closure
variables `functions` and `stageCount` of `interpretResolverPipeline`. -/
structure FieldComp where
  state : InterpreterState := {}
  functions : List FnConfig := []
  stageCount : Nat := 0

/-- api.ts line 268: `` `${typeName}_${fieldName}`.replace(/[^_0-9A-Za-z]/g, '_') `` —
every character outside `[_0-9A-Za-z]` is replaced by `_`. -/
def fieldFQN (typeName fieldName : String) : String :=
  ⟨(typeName ++ "_" ++ fieldName).data.map (fun c => if isIdentChar c then c else '_')⟩

/-- The filter of api.ts line 309: keep a returned value only at the first index whose
type is structurally equal to its own (collapsing duplicate branch return types). -/
def dedupByType (rs : List VObj) : List VObj :=
  (rs.enum.filter (fun ir =>
    rs.findIdx (fun v => Shape.beq (VObject.getType ir.2) (VObject.getType v)) == ir.1)).map
    (fun ir => ir.2)

/-- api.ts lines 302–322 after `parseIf` returns: map `undefined` branch results to
`VNothing`, collapse structurally equal return types, type the result as the single
remaining type or as a union over the distinct types, stash it, and hand back a typed
reference — unless every branch returned nothing, in which case the if-statement's
value is `VNothing('null')` and nothing is stashed. -/
def interpretIfResult (returnId : String) (branchYieldValues : List (Option VObj))
    (state : InterpreterState) : Except String (Option VObj × InterpreterState) :=
  let allUndefined := (branchYieldValues.filter (fun v => v.isSome)).length == 0
  let returnedValues := dedupByType (branchYieldValues.map (fun r =>
    match r with
    | none => vNothingNull
    | some o => o))
  -- `returnedValues.length === 1 ? returnedValues[0] : new VUnion(new UnionShape(...), ...)`
  let returnValue :=
    if returnedValues.length == 1 then returnedValues.headD vNothingNull
    else VObject.fromExpr (.unionS {} none (returnedValues.map VObject.getType))
        (.text returnId)
  if !allUndefined then
    match state.stash returnValue none false with
    | .error e => .error e
    | .ok (stashId, st') =>
      .ok (some (VObject.fromExpr (VObject.getType returnValue) (.text stashId)), st')
  else .ok (some vNothingNull, state)

/-- The items shape of a collection (`.Items`). -/
def Shape.itemsOf : Shape → Option Shape
| .arrayS _ items => some items
| .setS _ items => some items
| .mapS _ values => some values
| _ => none

mutual

/-- Modelled from the spec: the §4.2 driver loop — pull statements one at a time,
lower each with `interpret`, resume the program with the lowered result; the
program's final return value becomes the field's overall result. -/
def interpretProgram (fieldFQN : String) (fuel : Nat) (program : Program)
    (fc : FieldComp) : Except String (Option VObj × FieldComp) :=
  match fuel with
  | 0 => .error ("out of fuel")
  | fuel + 1 =>
    match program with
    | .done r => .ok (r, fc)
    | .yieldS stmt k =>
      match interpret fieldFQN fuel stmt fc with
      | .error e => .error e
      | .ok (v, fc) => interpretProgram fieldFQN fuel (k v) fc

/-- api.ts `interpret` (lines 274–350): lower one statement.
  * stash: `state.stash` and return a typed reference to the stash id;
  * write: render the expressions into the buffer, return nothing;
  * for-loop: emit `#foreach( $itemN in <list>)`, lower the nested program with
    item/index/has-next bound, emit `#end`;
  * if: lower the branches (`parseIf`), then unify the branch results
    (`interpretIfResult`);
  * call: flush the buffer as the stage's request template, register a pipeline
    function named `{fieldFQN}{stageCount+1}` whose response template stashes
    `$context.result` into a fresh `$context.stash.<name>`, and resume the program
    with a typed reference to that stash variable. -/
def interpret (fieldFQN : String) (fuel : Nat) (stmt : Stmt) (fc : FieldComp) :
    Except String (Option VObj × FieldComp) :=
  match fuel with
  | 0 => .error ("out of fuel")
  | fuel + 1 =>
    match stmt with
    | .stashS value id localOnly =>
      match fc.state.stash value id localOnly with
      | .error e => .error e
      | .ok (stashId, st) =>
        .ok (some (VObject.fromExpr (VObject.getType value) (.text stashId)),
          { fc with state := st })
    | .writeS expressions =>
      match writeMany fc.state expressions with
      | .error e => .error e
      | .ok st => .ok (none, { fc with state := st })
    | .forLoop list thn =>
      let named := fc.state.newId "item"
      let itemId := "$" ++ named.1
      match writeMany named.2
        [.text ("#foreach( "), .text itemId, .text (" in "), VObject.getExpr list,
         .text (")"), .indentE, .lineE] with
      | .error e => .error e
      | .ok st =>
        match Shape.itemsOf (VObject.getType list) with
        | none => .error ("cannot read Items of a non-collection shape")
        | some itemShape =>
          let item := VObject.fromExpr itemShape (.text itemId)
          let index : VObj := ⟨.integerS {}, .text ("$foreach.index")⟩
          let hasNext : VObj := ⟨.boolS {}, .text ("$foreach.hasNext")⟩
          match interpretProgram fieldFQN fuel (thn item index hasNext)
            { fc with state := st } with
          | .error e => .error e
          | .ok (_, fc) =>
            match writeMany fc.state [.unindentE, .lineE, .text ("#end"), .lineE] with
            | .error e => .error e
            | .ok st => .ok (none, { fc with state := st })
    | .ifS condition thn elseB =>
      match parseIfM fieldFQN fuel condition thn elseB fc with
      | .error e => .error e
      | .ok (returnId, branchYieldValues, fc) =>
        match interpretIfResult returnId branchYieldValues fc.state with
        | .error e => .error e
        | .ok (v, st) => .ok (v, { fc with state := st })
    | .callS request responseType =>
      let named := fc.state.newId "var"
      match writeExpr named.2 (VObject.getExpr request) with
      | .error e => .error e
      | .ok st =>
        let flushed := st.renderTemplate
        let responseMappingTemplate :=
          "#set($context.stash." ++ named.1 ++ " = $context.result)\n"
        let stageName := fieldFQN ++ toString (fc.stageCount + 1)
        .ok (some (VObject.fromExpr responseType (.text ("$context.stash." ++ named.1))),
          { state := flushed.2,
            stageCount := fc.stageCount + 1,
            functions := fc.functions ++
              [⟨stageName, flushed.1, responseMappingTemplate, stageName⟩] })

/-- Modelled from the spec: the new-variant `parseIf` — allocate a shared result
variable, lower each branch into `#if/#elseif/#else/#end` blocks with `branchWalk`
(each branch ending by `#set`-ing the shared variable when it yields a value), and
return the shared variable's reference together with every branch's yielded value
(an absent final else contributes an `undefined` fall-through value). -/
def parseIfM (fieldFQN : String) (fuel : Nat) (condition : VObj) (thn : Program)
    (elseB : Option ElseChain) (fc : FieldComp) :
    Except String (String × List (Option VObj) × FieldComp) :=
  match fuel with
  | 0 => .error ("out of fuel")
  | fuel + 1 =>
    let named := fc.state.newId "local"
    let returnId := "$" ++ named.1
    match writeMany named.2 [.text ("#if("), VObject.getExpr condition, .text (")"),
      .indentE, .lineE] with
    | .error e => .error e
    | .ok st =>
      match branchWalk fieldFQN fuel thn { fc with state := st } with
      | .error e => .error e
      | .ok (v, fc) =>
        match writeBranchEnd returnId v fc.state with
        | .error e => .error e
        | .ok st =>
          match parseIfChainM fieldFQN fuel returnId elseB { fc with state := st } with
          | .error e => .error e
          | .ok (chainValues, hasElse, fc) =>
            match writeMany fc.state [.text ("#end"), .lineE] with
            | .error e => .error e
            | .ok st =>
              .ok (returnId,
                v :: chainValues ++ (if hasElse then [] else [none]),
                { fc with state := st })

/-- Modelled from the spec: close one lowered branch — `#set` the shared result
variable when the branch yielded a value, then unindent. -/
def writeBranchEnd (returnId : String) (v : Option VObj) (st : InterpreterState) :
    Except String InterpreterState :=
  match v with
  | none => writeMany st [.unindentE, .lineE]
  | some o =>
    writeMany st [.text ("#set(" ++ returnId ++ " = "), VObject.getExpr o, .text (")"),
      .unindentE, .lineE]

/-- Modelled from the spec: lower the else-if / else chain, returning each branch's
yielded value and whether a final else branch exists. -/
def parseIfChainM (fieldFQN : String) (fuel : Nat) (returnId : String)
    (chain : Option ElseChain) (fc : FieldComp) :
    Except String (List (Option VObj) × Bool × FieldComp) :=
  match fuel with
  | 0 => .error ("out of fuel")
  | fuel + 1 =>
    match chain with
    | none => .ok ([], false, fc)
    | some (.els thn) =>
      match writeMany fc.state [.text ("#else"), .indentE, .lineE] with
      | .error e => .error e
      | .ok st =>
        match branchWalk fieldFQN fuel thn { fc with state := st } with
        | .error e => .error e
        | .ok (v, fc) =>
          match writeBranchEnd returnId v fc.state with
          | .error e => .error e
          | .ok st => .ok ([v], true, { fc with state := st })
    | some (.elseIf condition thn next) =>
      match writeMany fc.state [.text ("#elseif("), VObject.getExpr condition,
        .text (")"), .indentE, .lineE] with
      | .error e => .error e
      | .ok st =>
        match branchWalk fieldFQN fuel thn { fc with state := st } with
        | .error e => .error e
        | .ok (v, fc) =>
          match writeBranchEnd returnId v fc.state with
          | .error e => .error e
          | .ok st =>
            match parseIfChainM fieldFQN fuel returnId next { fc with state := st } with
            | .error e => .error e
            | .ok (vs, hasElse, fc) => .ok (v :: vs, hasElse, fc)

/-- Modelled from the spec: run a branch's nested sub-program.  Statements lower as at
the top level, except that a `call` inside a conditional branch must fail fast. -/
def branchWalk (fieldFQN : String) (fuel : Nat) (program : Program) (fc : FieldComp) :
    Except String (Option VObj × FieldComp) :=
  match fuel with
  | 0 => .error ("out of fuel")
  | fuel + 1 =>
    match program with
    | .done r => .ok (r, fc)
    | .yieldS stmt k =>
      match branchStmt fieldFQN fuel stmt fc with
      | .error e => .error e
      | .ok (v, fc) => branchWalk fieldFQN fuel (k v) fc

/-- Modelled from the spec: lower one statement inside a conditional branch: stash and
write behave as at the top level, loops and nested ifs recurse within the branch, and
a `call` is rejected (cross-stage calls cannot appear inside a VTL conditional block). -/
def branchStmt (fieldFQN : String) (fuel : Nat) (stmt : Stmt) (fc : FieldComp) :
    Except String (Option VObj × FieldComp) :=
  match fuel with
  | 0 => .error ("out of fuel")
  | fuel + 1 =>
    match stmt with
    | .stashS value id localOnly =>
      match fc.state.stash value id localOnly with
      | .error e => .error e
      | .ok (stashId, st) =>
        .ok (some (VObject.fromExpr (VObject.getType value) (.text stashId)),
          { fc with state := st })
    | .writeS expressions =>
      match writeMany fc.state expressions with
      | .error e => .error e
      | .ok st => .ok (none, { fc with state := st })
    | .forLoop list thn =>
      let named := fc.state.newId "item"
      let itemId := "$" ++ named.1
      match writeMany named.2
        [.text ("#foreach( "), .text itemId, .text (" in "), VObject.getExpr list,
         .text (")"), .indentE, .lineE] with
      | .error e => .error e
      | .ok st =>
        match Shape.itemsOf (VObject.getType list) with
        | none => .error ("cannot read Items of a non-collection shape")
        | some itemShape =>
          let item := VObject.fromExpr itemShape (.text itemId)
          let index : VObj := ⟨.integerS {}, .text ("$foreach.index")⟩
          let hasNext : VObj := ⟨.boolS {}, .text ("$foreach.hasNext")⟩
          match branchWalk fieldFQN fuel (thn item index hasNext)
            { fc with state := st } with
          | .error e => .error e
          | .ok (_, fc) =>
            match writeMany fc.state [.unindentE, .lineE, .text ("#end"), .lineE] with
            | .error e => .error e
            | .ok st => .ok (none, { fc with state := st })
    | .ifS condition thn elseB =>
      match parseIfM fieldFQN fuel condition thn elseB fc with
      | .error e => .error e
      | .ok (returnId, branchYieldValues, fc) =>
        match interpretIfResult returnId branchYieldValues fc.state with
        | .error e => .error e
        | .ok (v, st) => .ok (v, { fc with state := st })
    | .callS _ _ => .error ("Calls to services are not supported within an If branch.")

end

/-- The resolver configuration assembled for one field (api.ts lines 365–414):
kind UNIT or PIPELINE, templates, data-source reference and, for pipelines, the
ordered function configurations. -/
structure ResolverConfig where
  kind : String
  requestMappingTemplate : Option String := none
  responseMappingTemplate : Option String := none
  dataSourceName : Option String := none
  pipelineFunctions : Option (List FnConfig) := none
deriving DecidableEq

/-- api.ts lines 381–414: decide the resolver configuration from the interpreter's
stage list, trailing buffer and overall result.
  * no stages, no result, empty buffer → no resolver at all (a warning only);
  * no stages → a synthetic no-op data source stage (kind UNIT) whose request is the
    JSON `{version, payload}` literal and whose response renders the result;
  * one stage → kind UNIT on that stage, the trailing result JSON appended to its
    response template;
  * two or more stages → kind PIPELINE, request template `null`, each stage's response
    template suffixed with a `null` line, the resolver response being the trailing
    buffer. -/
def assembleResolver (result : Option VObj) (fc : FieldComp) :
    Except String (Option ResolverConfig) :=
  if fc.functions.length = 0 && result.isNone && fc.state.template.length = 0 then
    .ok none
  else if fc.functions.length = 0 then
    let payload : Lit :=
      match result with
      | none => .objectL []
      | some r => .exprL (.concatE [.text ("$util.toJson("), VObject.getExpr r, .text (")")])
    match VExpression.json (.objectL [("version", .strL "2017-02-28"), ("payload", payload)]) with
    | .error e => .error e
    | .ok jexpr =>
      match writeExpr fc.state jexpr with
      | .error e => .error e
      | .ok st =>
        let flushedReq := st.renderTemplate
        match result with
        | none =>
          .ok (some { kind := "UNIT", dataSourceName := some "NONE",
                      requestMappingTemplate := some flushedReq.1,
                      responseMappingTemplate := some "null" })
        | some r =>
          match writeMany flushedReq.2
            [.text ("$util.toJson("), VObject.getExpr r, .text (")")] with
          | .error e => .error e
          | .ok st =>
            .ok (some { kind := "UNIT", dataSourceName := some "NONE",
                        requestMappingTemplate := some flushedReq.1,
                        responseMappingTemplate := some st.renderTemplate.1 })
  else
    match (match result with
           | some r => writeMany fc.state
               [.text ("$util.toJson("), VObject.getExpr r, .text (")")]
           | none => writeMany fc.state [.text ("null")]) with
    | .error e => .error e
    | .ok st =>
      match fc.functions with
      | [f] =>
        .ok (some { kind := "UNIT",
                    dataSourceName := some f.dataSourceName,
                    requestMappingTemplate := some f.requestMappingTemplate,
                    responseMappingTemplate :=
                      some (f.responseMappingTemplate ++ "\n" ++ st.renderTemplate.1) })
      | fs =>
        .ok (some { kind := "PIPELINE",
                    requestMappingTemplate := some "null",
                    pipelineFunctions := some (fs.map (fun f =>
                      { f with responseMappingTemplate :=
                                 f.responseMappingTemplate ++ "\nnull" })),
                    responseMappingTemplate := some st.renderTemplate.1 })

/-- Compile one field: drive the program to completion and assemble the resolver. -/
def compileFieldResolver (fieldFQN : String) (fuel : Nat) (program : Program) :
    Except String (Option ResolverConfig) :=
  match interpretProgram fieldFQN fuel program {} with
  | .error e => .error e
  | .ok (result, fc) => assembleResolver result fc

/-! ## The legacy pipeline-always `Api` variant

The second, earlier implementation of the Api/resolver interpretation that coexists in
the source (the "pipeline-always" variant): per-prefix id counters, `parseIf` /
`parseBlock` closures for conditionals, a scalar-only input-type synthesizer and its
own `getTypeAnnotation`.  Statements in this variant are `Set` / `If` / `Call`.
Generator bodies that *throw* a `VObject` to end a block early (the `catch` in
`parseBlock`) are outside this model; for the programs representable here the block
`returnType` is always `undefined` (`none`), exactly as in the source for
non-throwing blocks. -/

namespace Legacy

open Punchcard

/-- The per-prefix fresh-name counters (the `id` closure, part_007 lines 206–218). -/
def IdState := List (String × Nat)

/-- `id(prefix)`: `prefix` joined with the incremented per-prefix counter (1-based). -/
def nextId (pfx : String) (st : IdState) : String × IdState :=
  let i := ((st.lookup pfx).getD 0) + 1
  (pfx ++ toString i, (pfx, i) :: st.filter (fun e => e.1 != pfx))

mutual

/-- A legacy resolver program: finish with an optional value or yield a statement. -/
inductive LProgram where
| done (result : Option VObj)
| yieldS (stmt : LStmt) (k : Option VObj → LProgram)

/-- The legacy statement vocabulary: `Set` (with optional explicit id), `If`, `Call`. -/
inductive LStmt where
| setS (id : Option String) (value : VObj)
| ifS (branch : LIfBranch)
| callS (request : VObj) (responseType : Shape)

/-- `IfBranch`: a condition, a branch program and an optional chained else part. -/
inductive LIfBranch where
| mk (condition : VObj) (thn : LProgram) (elseB : Option LElseChain)

/-- The chain hanging off an `IfBranch`: either another else-if branch (whose own
`elseBranch` continues the chain) or a final else. -/
inductive LElseChain where
| elseIf (b : LIfBranch)
| els (thn : LProgram)
end

/-- The condition of a legacy if branch. -/
def LIfBranch.condition : LIfBranch → VObj
| .mk c _ _ => c

/-- The branch program of a legacy if branch. -/
def LIfBranch.thn : LIfBranch → LProgram
| .mk _ t _ => t

/-- The chained else part of a legacy if branch. -/
def LIfBranch.elseB : LIfBranch → Option LElseChain
| .mk _ _ e => e

/-- Flatten the `elseBranch` chain into the else-if branch list and the optional final
else program (part_007 lines 239–251). -/
def flattenChain : Option LElseChain → List LIfBranch × Option LProgram
| none => ([], none)
| some (.els thn) => ([], some thn)
| some (.elseIf (.mk c t e)) =>
  let rest := flattenChain e
  (.mk c t e :: rest.1, rest.2)

mutual

/-- part_007 `parseIf` (lines 235–289): flatten the chain, allocate the local callback
variable, lower every branch with `parseBlock`, and wire the
`#if/#elseif/#{else}/#end` structure followed by `#set(<callback> = <local>)`.
The branch return type is the first defined branch return type (the source's
`returnTypes ? returnTypes[0] : nothing` — the array is always truthy, so an empty
list yields `undefined`, modelled as `none`). -/
def parseIf (fuel : Nat) (branch : LIfBranch) (callback : String) (st : IdState) :
    Except String ((VExpr × Option Shape) × IdState) :=
  match fuel with
  | 0 => .error ("out of fuel")
  | fuel + 1 =>
    let flat := flattenChain branch.elseB
    let named := nextId "local" st
    let localCallback := "$" ++ named.1
    match parseBlock fuel branch.thn localCallback named.2 with
    | .error e => .error e
    | .ok (ifPart, st) =>
      match parseElseIfs fuel flat.1 localCallback st with
      | .error e => .error e
      | .ok (elseIfParts, st) =>
        match (match flat.2 with
               | none => (Except.ok (none, st) :
                   Except String (Option (VExpr × Option Shape) × IdState))
               | some thn =>
                 match parseBlock fuel thn localCallback st with
                 | .error e => .error e
                 | .ok (e, st) => .ok (some e, st)) with
        | .error e => .error e
        | .ok (elsePart, st) =>
          let returnTypes : List Shape :=
            ([ifPart.2] ++ elseIfParts.map (fun p => p.2) ++ [elsePart.bind (fun p => p.2)]).filterMap id
          .ok ((.concatE
            ([.text ("#if("), (LIfBranch.condition branch).expr, .text (")"),
              VExpression.block ifPart.1]
             ++ elseIfParts.map (fun p => p.1)
             ++ (match elsePart with
                 | some e => [.text ("#\x7belse\x7d"), VExpression.block e.1]
                 | none => [])
             ++ [.text ("#end"), .lineE,
                 .text ("#set(" ++ callback ++ " = " ++ localCallback ++ ")")]),
            returnTypes.head?), st)

/-- The `elseIfBranches.map` of part_007 lines 257–266: each else-if branch lowered by
`parseBlock` and wrapped as `#elseif(<cond>)<block>`. -/
def parseElseIfs (fuel : Nat) (branches : List LIfBranch) (localCallback : String)
    (st : IdState) : Except String (List (VExpr × Option Shape) × IdState) :=
  match fuel with
  | 0 => .error ("out of fuel")
  | fuel + 1 =>
    match branches with
    | [] => .ok ([], st)
    | b :: bs =>
      match parseBlock fuel b.thn localCallback st with
      | .error e => .error e
      | .ok (p, st) =>
        match parseElseIfs fuel bs localCallback st with
        | .error e => .error e
        | .ok (ps, st) =>
          .ok ((.concatE [.text ("#elseif("), (LIfBranch.condition b).expr, .text (")"),
                VExpression.block p.1], p.2) :: ps, st)

/-- part_007 `parseBlock` (lines 291–339): drive a branch's nested program.  A `Set`
statement becomes a local `#set($name = ...)` whose reference is the resume value;
a nested `If` recurses through `parseIf` and resumes with a reference to the callback
variable; a `Call` throws `Calls to services are not supported within an If branch.`;
when the program finishes with a value, the block ends with
`#set(<callback> = <value>)`. -/
def parseBlock (fuel : Nat) (block : LProgram) (callback : String) (st : IdState) :
    Except String ((VExpr × Option Shape) × IdState) :=
  match fuel with
  | 0 => .error ("out of fuel")
  | fuel + 1 => parseBlockGo fuel block callback [] st

/-- The statement loop of `parseBlock`, accumulating the block's expressions. -/
def parseBlockGo (fuel : Nat) (block : LProgram) (callback : String)
    (expressions : List VExpr) (st : IdState) :
    Except String ((VExpr × Option Shape) × IdState) :=
  match fuel with
  | 0 => .error ("out of fuel")
  | fuel + 1 =>
    match block with
    | .done v =>
      let expressions := expressions ++
        (match v with
         | some o => [VExpr.concatE [.text ("#set(" ++ callback ++ " = "), o.expr, .text (")")]]
         | none => [])
      .ok ((.concatE expressions, none), st)
    | .yieldS stmt k =>
      match stmt with
      | .setS id value =>
        let named :=
          match id with
          | some n => (n, st)
          | none => nextId "var" st
        let expressions := expressions ++
          [VExpr.concatE [.text ("#set($" ++ named.1 ++ " = "), value.expr, .text (")")]]
        let ret : Option VObj := some ⟨value.type, .text ("$" ++ named.1)⟩
        parseBlockGo fuel (k ret) callback expressions named.2
      | .ifS b =>
        match parseIf fuel b callback st with
        | .error e => .error e
        | .ok (p, st) =>
          -- the source resumes with `VObject.of(returnType, new VExpression(`$${callback}`))`
          -- (note the doubled `$`: `callback` already begins with one); an `undefined`
          -- return type is modelled as the nothing shape
          let ret : Option VObj := some ⟨(p.2).getD (.nothingS {}), .text ("$" ++ callback)⟩
          parseBlockGo fuel (k ret) callback (expressions ++ [p.1]) st
      | .callS _ _ => .error ("Calls to services are not supported within an If branch.")

end

/-- part_007 `isScalar` (lines 444–449). -/
def isScalar (shape : Shape) : Bool :=
  ShapeGuards.isStringShape shape
    || ShapeGuards.isNumericShape shape
    || ShapeGuards.isBoolShape shape
    || ShapeGuards.isTimestampShape shape

mutual

/-- part_007 `getTypeAnnotation` (lines 411–442): nullability comes straight from the
`isNullable` metadata; timestamps map to the custom `Timestamp` scalar; there is no
union/enum/any handling in this variant. -/
def getTypeAnnotation (fuel : Nat) (shape : Shape) : Except String String :=
  match fuel with
  | 0 => .error ("out of fuel")
  | fuel + 1 =>
    match getTypeName fuel shape with
    | .error e => .error e
    | .ok name => .ok (name ++ (if shape.meta.nullable then "" else "!"))

/-- The legacy `getTypeName` closure. -/
def getTypeName (fuel : Nat) (shape : Shape) : Except String String :=
  match fuel with
  | 0 => .error ("out of fuel")
  | fuel + 1 =>
    match shape.meta.graphqlType with
    | some g => .ok g
    | none =>
      match shape with
      | .arrayS _ items =>
        match getTypeAnnotation fuel items with
        | .error e => .error e
        | .ok inner => .ok ("[" ++ inner ++ "]")
      | .mapS _ _ => .error ("maps are not supported in GraphQL - use a RecordType instead")
      | .stringS _ => .ok ("String")
      | .timestampS _ => .ok ("Timestamp")
      | .boolS _ => .ok ("Boolean")
      | .numberS _ => .ok ("Float")
      | .integerS _ => .ok ("Int")
      | .recordS _ fqn _ =>
        match fqn with
        | some f => .ok f
        | none => .error
          ("Only records wit a FQN are supported as types in Graphql. class A extends Record('FQN', \x7b .. \x7d) \x7b\x7d")
      | s => .error ("shape type " ++ ((Shape.FQNof s).getD "undefined")
          ++ " is not supported by GraphQL")

end

/-- The input-type synthesis state: the `seenInputTypes` set and the SDL `blocks`. -/
structure InputState where
  seenInputTypes : List String := []
  blocks : List String := []
deriving DecidableEq

/-- The member lines of a legacy input block: every member must be scalar, otherwise
`Input type <FQN> contains non-scalar type <memberFQN> for field <fieldName>` is
thrown; scalar members render as `  name: <annotation>`. -/
def inputMembers (fuel : Nat) (fqnStr : String) :
    List (String × Shape) → Except String (List String)
| [] => .ok []
| (fieldName, fieldShape) :: rest =>
  if !isScalar fieldShape then
    .error ("Input type " ++ fqnStr ++ " contains non-scalar type "
      ++ ((Shape.FQNof fieldShape).getD "undefined") ++ " for field " ++ fieldName)
  else
    match getTypeAnnotation fuel fieldShape with
    | .error e => .error e
    | .ok ann =>
      match inputMembers fuel fqnStr rest with
      | .error e => .error e
      | .ok rest' => .ok (("  " ++ fieldName ++ ": " ++ ann) :: rest')

/-- part_007 `generateInputTypeSignature` (lines 172–185): emit one `input` block per
unseen record FQN, with scalar-only members. -/
def generateInputTypeSignature (fuel : Nat) (shape : Shape) (st : InputState) :
    Except String InputState :=
  let fqnStr := (Shape.FQNof shape).getD "undefined"
  if st.seenInputTypes.contains fqnStr then .ok st
  else
    let st := { st with seenInputTypes := st.seenInputTypes ++ [fqnStr] }
    match inputMembers fuel fqnStr (match shape with
                                    | .recordS _ _ members => members
                                    | _ => []) with
    | .error e => .error e
    | .ok lines =>
      .ok { st with blocks := st.blocks ++
        ["input " ++ fqnStr ++ " \x7b\n" ++ String.intercalate "\n" lines ++ "\n\x7d"] }

/-- The family of branch programs consisting of `n` `Set` statements followed by a
yielded `Call` statement — a call nested directly inside a conditional branch,
whatever the program does afterwards. -/
inductive SetsThenCall : Nat → LProgram → Prop
| head (request : VObj) (responseType : Shape) (k : Option VObj → LProgram) :
    SetsThenCall 0 (.yieldS (.callS request responseType) k)
| step (n : Nat) (id : Option String) (value : VObj) (k : Option VObj → LProgram) :
    (∀ v, SetsThenCall n (k v)) → SetsThenCall (n + 1) (.yieldS (.setS id value) k)

end Legacy

/-- Running indentation balance of a directive sequence: `unindent` is only admissible
at a strictly positive balance (the source decrements first and faults on a negative
result), so a sequence is balanced when every `unindent` is preceded by strictly more
`indent` directives. -/
def balanceOk (d : Int) : List FrameOp → Bool
| [] => true
| .ind :: ops => balanceOk (d + 1) ops
| .unind :: ops => decide (1 ≤ d) && balanceOk (d - 1) ops

/-- Whether an SDL block is the block declaring `f`: it opens with
`type f `, `enum f `, `union f ` or `input f `. -/
def isBlockFor (f : String) (b : String) : Bool :=
  (("type " ++ f ++ " ").toList.isPrefixOf b.toList)
    || (("enum " ++ f ++ " ").toList.isPrefixOf b.toList)
    || (("union " ++ f ++ " ").toList.isPrefixOf b.toList)
    || (("input " ++ f ++ " ").toList.isPrefixOf b.toList)

/-- A well-formed type index: every entry's key is an identifier, is the FQN of the
entry's record shape, and every shape reachable through the entry uses identifier-only
names. -/
def wfIndex (index : List (String × TypeSpec)) : Bool :=
  index.all (fun e =>
    identOnly e.1 && (Shape.FQNof e.2.type == some e.1)
      && wfNames e.2.type && wfNamesMembers e.2.fields)

/-- The stage-emission contract of a compilation step: it appends some list of stage
functions, advances `stageCount` by their number, and every appended stage is named
`{fieldFQN}{index}` with the 1-based index continuing from the starting `stageCount`. -/
def StageExt (fieldFQN : String) (fc fc' : FieldComp) : Prop :=
  ∃ ext : List FnConfig,
    fc'.functions = fc.functions ++ ext
    ∧ fc'.stageCount = fc.stageCount + ext.length
    ∧ ∀ (i : Nat) (h : i < ext.length),
        (ext.get ⟨i, h⟩).name = fieldFQN ++ toString (fc.stageCount + i + 1)

/-- The schema-emission contract of a synthesis step: it appends some list of fresh,
identifier-named FQNs to the seen set and one SDL block per appended FQN, and for every
identifier `f` the appended blocks contain exactly one block declaring `f` if `f` is
among the appended FQNs and none otherwise. -/
def SchemaExt (st st2 : SchemaState) : Prop :=
  ∃ sext bext,
    st2.seenDataTypes = st.seenDataTypes ++ sext
    ∧ st2.blocks = st.blocks ++ bext
    ∧ sext.Nodup
    ∧ (∀ f ∈ sext, f ∉ st.seenDataTypes ∧ identOnly f = true)
    ∧ bext.length = sext.length
    ∧ (∀ f, identOnly f = true →
        bext.countP (isBlockFor f) = (if f ∈ sext then 1 else 0))

/-- The type index of the FQN-dedup demonstration: a `Query` record whose two fields
both reference the same `Post` record. -/
def demoPost : Shape := .recordS {} (some "Post") [("id", .stringS {})]

/-- The root record of the FQN-dedup demonstration. -/
def demoQuery : Shape := .recordS {} (some "Query") [("a", demoPost), ("b", demoPost)]

/-- The registered `TypeSpec` index of the FQN-dedup demonstration. -/
def demoIndex : List (String × TypeSpec) :=
  [("Query", { type := demoQuery, fields := [("a", demoPost), ("b", demoPost)] }),
   ("Post", { type := demoPost, fields := [("id", .stringS {})] })]

/-- The synthesis result of the FQN-dedup demonstration: both fields of `Query`
reference `Post`, yet exactly one `Post` block is emitted. -/
def demoSchema : SchemaState :=
  { seenDataTypes := ["Query", "Post"],
    blocks := ["type Query \x7b\n  a: Post!\n  b: Post!\n\x7d",
               "type Post \x7b\n  id: String!\n\x7d"] }

/-! ## Theorems -/

theorem stageExt_of_eq (fieldFQN : String) {fc fc' : FieldComp}
    (h1 : fc'.functions = fc.functions) (h2 : fc'.stageCount = fc.stageCount) :
    StageExt fieldFQN fc fc' :=
  ⟨[], by simp [h1], by simp [h2], fun i h => absurd h (by simp)⟩

theorem stageExt_refl (fieldFQN : String) (fc : FieldComp) : StageExt fieldFQN fc fc :=
  stageExt_of_eq fieldFQN rfl rfl

theorem stageExt_trans (fieldFQN : String) {a b c : FieldComp}
    (hab : StageExt fieldFQN a b) (hbc : StageExt fieldFQN b c) :
    StageExt fieldFQN a c := by
  obtain ⟨e1, hf1, hc1, hn1⟩ := hab
  obtain ⟨e2, hf2, hc2, hn2⟩ := hbc
  refine ⟨e1 ++ e2, by rw [hf2, hf1, List.append_assoc], by rw [hc2, hc1]; simp; omega, ?_⟩
  intro i h
  rw [List.length_append] at h
  by_cases hi : i < e1.length
  · rw [List.get_eq_getElem, List.getElem_append_left hi]
    exact hn1 i hi
  · have hi2 : i - e1.length < e2.length := by omega
    rw [List.get_eq_getElem, List.getElem_append_right (show e1.length ≤ i by omega)]
    have h2' := hn2 (i - e1.length) hi2
    rw [List.get_eq_getElem] at h2'
    have harg : b.stageCount + (i - e1.length) + 1 = a.stageCount + i + 1 := by
      rw [hc1]; omega
    rw [harg] at h2'
    exact h2'

theorem runFrameOps_ok_of_balanced :
    ∀ (ops : List FrameOp) (f : Frame), balanceOk f.indentVal ops = true →
      0 ≤ f.indentVal → ∃ f', runFrameOps ops f = .ok f'
| [], f, _, _ => ⟨f, rfl⟩
| .ind :: ops, f, hb, hn => by
  simp only [balanceOk] at hb
  have := runFrameOps_ok_of_balanced ops f.indent
    (by simpa [Frame.indent] using hb) (by simp [Frame.indent]; omega)
  simpa [runFrameOps] using this
| .unind :: ops, f, hb, hn => by
  simp only [balanceOk, Bool.and_eq_true, decide_eq_true_eq] at hb
  have hge : 1 ≤ f.indentVal := hb.1
  have hun : f.unindent = .ok { f with indentVal := f.indentVal - 1 } := by
    simp [Frame.unindent]; omega
  have := runFrameOps_ok_of_balanced ops { f with indentVal := f.indentVal - 1 }
    (by simpa using hb.2) (by simp; omega)
  simpa [runFrameOps, hun] using this

/-- C7: the render context's indentation depth never goes negative — `unindent()` at
depth zero throws the fatal `indent underflow` error, while any directive sequence in
which every `unindent` is preceded by at least as many `indent`s (running balance
check) runs without fault. -/
theorem unindent_underflow_guard :
    (∀ f : Frame, f.indentVal = 0 → f.unindent = .error ("indent underflow"))
    ∧ (∀ ops : List FrameOp, balanceOk 0 ops = true →
        ∃ f', runFrameOps ops {} = .ok f') := by
  constructor
  · intro f h
    simp [Frame.unindent, h]
  · intro ops hb
    exact runFrameOps_ok_of_balanced ops {} (by simpa using hb) (by simp)

/-- Witness for `unindent_underflow_guard` at a frame of depth zero and the balanced
sequence `[indent, unindent]`. -/
theorem unindent_underflow_guard_witness :
    (Frame.unindent { indentVal := 0, tokens := [] } = .error ("indent underflow"))
    ∧ ∃ f', runFrameOps [.ind, .unind] {} = .ok f' :=
  ⟨unindent_underflow_guard.1 { indentVal := 0, tokens := [] } rfl,
   unindent_underflow_guard.2 [.ind, .unind] (by decide)⟩

/-- C8: the JSON-literal renderer emits strings as quote, the string verbatim, quote —
no escaping of quotes or control characters — and fails on a value of unsupported
runtime type with an error naming the offending value. -/
theorem json_string_verbatim_and_unsupported :
    (∀ s : String, VExpression.json (.strL s) = .ok (.text ("\"" ++ s ++ "\"")))
    ∧ (∀ s : String, renderExpr (.text ("\"" ++ s ++ "\"")) = .ok ("\"" ++ s ++ "\""))
    ∧ (∀ r : String,
        VExpression.json (.other r) =
          .error ("could not convert literal type to expression: " ++ r)) := by
  refine ⟨fun s => by simp [VExpression.json], fun s => ?_, fun r => by simp [VExpression.json]⟩
  simp [renderExpr, writeExpr, InterpreterState.push, String.join]

namespace Legacy

theorem legacy_scalar_annotation_ok :
    ∀ (fuel : Nat) (s : Shape), 2 ≤ fuel → isScalar s = true →
      ∃ a, getTypeAnnotation fuel s = .ok a := by
  intro fuel s hfuel hs
  obtain ⟨k, rfl⟩ : ∃ k, fuel = k + 2 := ⟨fuel - 2, by omega⟩
  cases s <;> simp_all [isScalar, ShapeGuards.isStringShape, ShapeGuards.isNumericShape,
    ShapeGuards.isNumberShape, ShapeGuards.isBoolShape, ShapeGuards.isTimestampShape] <;>
    rename_i m <;>
    cases hg : m.graphqlType <;>
    simp [ getTypeAnnotation, getTypeName, Shape.meta, hg]

end Legacy

theorem legacy_input_members_error :
    ∀ (members : List (String × Shape)) (fuel : Nat) (fqnStr fieldName : String) (bad : Shape),
      2 ≤ fuel →
      members.find? (fun ms => !Legacy.isScalar ms.2) = some (fieldName, bad) →
      Legacy.inputMembers fuel fqnStr members =
        .error ("Input type " ++ fqnStr ++ " contains non-scalar type "
          ++ ((Shape.FQNof bad).getD "undefined") ++ " for field " ++ fieldName) := by
  intro members
  induction members with
  | nil =>
    intro fuel fqnStr fieldName bad _ hfind
    simp at hfind
  | cons head rest ih =>
    obtain ⟨n, s⟩ := head
    intro fuel fqnStr fieldName bad hfuel hfind
    by_cases hscalar : Legacy.isScalar s = true
    · have hfind' : rest.find? (fun ms => !Legacy.isScalar ms.2) = some (fieldName, bad) := by
        simpa [hscalar] using hfind
      obtain ⟨a, ha⟩ := Legacy.legacy_scalar_annotation_ok fuel s hfuel hscalar
      have hrest := ih fuel fqnStr fieldName bad hfuel hfind'
      simp [Legacy.inputMembers, hscalar, ha, hrest]
    · simp [hscalar] at hfind
      obtain ⟨rfl, rfl⟩ := hfind
      simp [Legacy.inputMembers, hscalar]

/-- C2 (amended): in the legacy pipeline-always variant, `generateInputTypeSignature`
admits only scalar members (string / number / bool / timestamp): synthesizing an input
type for an unseen record whose member list contains a non-scalar member (e.g. a nested
record) fails with the explicit
`Input type <FQN> contains non-scalar type <member> for field <name>` error, naming the
first offending member.  (The newer `parseInputType` variant instead recursively
synthesizes nested records as further input types; see the counterexample.) -/
theorem legacy_input_type_scalar_violation :
    ∀ (fuel : Nat) (m : ShapeMeta) (fqn : Option String) (members : List (String × Shape))
      (st : Legacy.InputState) (fieldName : String) (bad : Shape),
      2 ≤ fuel →
      st.seenInputTypes.contains (fqn.getD "undefined") = false →
      members.find? (fun ms => !Legacy.isScalar ms.2) = some (fieldName, bad) →
      Legacy.generateInputTypeSignature fuel (.recordS m fqn members) st =
        .error ("Input type " ++ (fqn.getD "undefined") ++ " contains non-scalar type "
          ++ ((Shape.FQNof bad).getD "undefined") ++ " for field " ++ fieldName) := by
  intro fuel m fqn members st fieldName bad hfuel hseen hfind
  have herr := legacy_input_members_error members fuel (fqn.getD "undefined") fieldName bad
    hfuel hfind
  have hnot : (fqn.getD "undefined") ∉ st.seenInputTypes := by simpa using hseen
  simp [Legacy.generateInputTypeSignature, Shape.FQNof, hnot, herr]

/-- Witness for `legacy_input_type_scalar_violation`: the record
`Outer { x: string, inner: Inner }` with the nested record member `Inner`. -/
theorem legacy_input_type_scalar_violation_witness :
    Legacy.generateInputTypeSignature 10 (.recordS {} (some "Outer")
        [("x", .stringS {}), ("inner", .recordS {} (some "Inner") [("a", .stringS {})])]) {} =
      .error ("Input type Outer contains non-scalar type Inner for field inner") :=
  legacy_input_type_scalar_violation 10 {} (some "Outer")
    [("x", .stringS {}), ("inner", .recordS {} (some "Inner") [("a", .stringS {})])] {}
    "inner" (.recordS {} (some "Inner") [("a", .stringS {})])
    (by omega) (by rfl) (by rfl)

/-- C2 (counterexample): the unit-or-pipeline variant's `parseInputType` does *not*
reject a non-scalar input member — compiling a record argument containing a nested
record member succeeds, synthesizing an `input` block for the nested record as well. -/
theorem input_type_nested_record_accepted :
    parseInputType 10 [] (.recordS {} (some "Outer")
        [("x", .stringS {}), ("inner", .recordS {} (some "Inner") [("a", .stringS {})])]) {} =
      .ok { seenDataTypes := ["Outer", "Inner"],
            blocks := ["input Inner \x7b\n  a: String!\n\x7d",
                       "input Outer \x7b\n  x: String!\n  inner: Inner!\n\x7d"] } := by
  rfl

theorem assemble_pipeline_aux :
    ∀ (result : Option VObj) (fc : FieldComp) (cfg : ResolverConfig),
      2 ≤ fc.functions.length →
      assembleResolver result fc = .ok (some cfg) →
      cfg.kind = "PIPELINE"
        ∧ cfg.requestMappingTemplate = some "null"
        ∧ cfg.pipelineFunctions = some (fc.functions.map (fun f =>
            { f with responseMappingTemplate := f.responseMappingTemplate ++ "\nnull" })) := by
  intro result fc cfg h2 h
  unfold assembleResolver at h
  rw [if_neg (fun hcond => by
        simp only [Bool.and_eq_true, decide_eq_true_eq] at hcond
        obtain ⟨⟨h0, -⟩, -⟩ := hcond
        omega),
      if_neg (by omega)] at h
  rcases result with _ | r <;>
  · split at h
    · simp at h
    · split at h
      · rename_i heq
        rw [heq] at h2
        simp at h2
      · cases h
        exact ⟨rfl, rfl, rfl⟩

/-- C10: in every PIPELINE assembly (two or more stages), each pipeline function's final
response mapping template is its stage response template with a `null` line appended,
and the resolver's own request mapping template is the literal `null`. -/
theorem pipeline_intermediate_null :
    ∀ (result : Option VObj) (fc : FieldComp) (cfg : ResolverConfig),
      2 ≤ fc.functions.length →
      assembleResolver result fc = .ok (some cfg) →
      cfg.kind = "PIPELINE"
        ∧ cfg.requestMappingTemplate = some "null"
        ∧ cfg.pipelineFunctions = some (fc.functions.map (fun f =>
            { f with responseMappingTemplate := f.responseMappingTemplate ++ "\nnull" })) :=
  assemble_pipeline_aux

/-- Witness for `pipeline_intermediate_null` at a two-stage compilation state. -/
theorem pipeline_intermediate_null_witness :
    ({ kind := "PIPELINE", requestMappingTemplate := some "null",
       responseMappingTemplate := some "null",
       pipelineFunctions := some
         [⟨"Q_f1", "R1", "#set($context.stash.var1 = $context.result)\n\nnull", "Q_f1"⟩,
          ⟨"Q_f2", "R2", "#set($context.stash.var2 = $context.result)\n\nnull", "Q_f2"⟩] }
      : ResolverConfig).kind = "PIPELINE"
    ∧ ({ kind := "PIPELINE", requestMappingTemplate := some "null",
         responseMappingTemplate := some "null",
         pipelineFunctions := some
           [⟨"Q_f1", "R1", "#set($context.stash.var1 = $context.result)\n\nnull", "Q_f1"⟩,
            ⟨"Q_f2", "R2", "#set($context.stash.var2 = $context.result)\n\nnull", "Q_f2"⟩] }
        : ResolverConfig).requestMappingTemplate = some "null"
    ∧ ({ kind := "PIPELINE", requestMappingTemplate := some "null",
         responseMappingTemplate := some "null",
         pipelineFunctions := some
           [⟨"Q_f1", "R1", "#set($context.stash.var1 = $context.result)\n\nnull", "Q_f1"⟩,
            ⟨"Q_f2", "R2", "#set($context.stash.var2 = $context.result)\n\nnull", "Q_f2"⟩] }
        : ResolverConfig).pipelineFunctions = some
          (([⟨"Q_f1", "R1", "#set($context.stash.var1 = $context.result)\n", "Q_f1"⟩,
             ⟨"Q_f2", "R2", "#set($context.stash.var2 = $context.result)\n", "Q_f2"⟩]
            : List FnConfig).map (fun f =>
              { f with responseMappingTemplate := f.responseMappingTemplate ++ "\nnull" })) :=
  pipeline_intermediate_null none
    { state := {}, stageCount := 2,
      functions := [⟨"Q_f1", "R1", "#set($context.stash.var1 = $context.result)\n", "Q_f1"⟩,
                    ⟨"Q_f2", "R2", "#set($context.stash.var2 = $context.result)\n", "Q_f2"⟩] }
    { kind := "PIPELINE", requestMappingTemplate := some "null",
      responseMappingTemplate := some "null",
      pipelineFunctions := some
        [⟨"Q_f1", "R1", "#set($context.stash.var1 = $context.result)\n\nnull", "Q_f1"⟩,
         ⟨"Q_f2", "R2", "#set($context.stash.var2 = $context.result)\n\nnull", "Q_f2"⟩] }
    (by decide) (by rfl)

theorem legacy_parseBlockGo_call_error :
    ∀ (n : Nat) (p : Legacy.LProgram), Legacy.SetsThenCall n p →
      ∀ (fuel : Nat) (callback : String) (exprs : List VExpr) (st : Legacy.IdState),
        n + 1 ≤ fuel →
        Legacy.parseBlockGo fuel p callback exprs st =
          .error ("Calls to services are not supported within an If branch.") := by
  intro n p hstc
  induction hstc with
  | head request responseType k =>
    intro fuel callback exprs st hfuel
    obtain ⟨f, rfl⟩ : ∃ f, fuel = f + 1 := ⟨fuel - 1, by omega⟩
    simp [Legacy.parseBlockGo]
  | step n id value k hk ih =>
    intro fuel callback exprs st hfuel
    obtain ⟨f, rfl⟩ : ∃ f, fuel = f + 1 := ⟨fuel - 1, by omega⟩
    simp only [Legacy.parseBlockGo]
    exact ih _ f callback _ _ (by omega)

/-- C6: yielding a call-statement from inside an if branch's nested sub-program fails
fast — for every branch program made of set-statements followed by a yielded call
(whatever the program would do afterwards), lowering the if-statement aborts with the
unrecoverable `Calls to services are not supported within an If branch.` error, and no
stage is emitted. -/
theorem call_in_if_branch_fails :
    ∀ (n : Nat) (branch : Legacy.LIfBranch) (callback : String) (st : Legacy.IdState)
      (fuel : Nat),
      Legacy.SetsThenCall n (branch.thn) →
      n + 3 ≤ fuel →
      Legacy.parseIf fuel branch callback st =
        .error ("Calls to services are not supported within an If branch.") := by
  intro n branch callback st fuel hstc hfuel
  obtain ⟨c, t, e⟩ := branch
  obtain ⟨f, rfl⟩ : ∃ f, fuel = f + 1 := ⟨fuel - 1, by omega⟩
  obtain ⟨g, rfl⟩ : ∃ g, f = g + 1 := ⟨f - 1, by omega⟩
  have hblock := legacy_parseBlockGo_call_error n t hstc g
    ("$" ++ (Legacy.nextId "local" st).1) [] (Legacy.nextId "local" st).2 (by omega)
  simp [Legacy.parseIf, Legacy.parseBlock, Legacy.LIfBranch.thn] at hstc ⊢
  simp [hblock]

/-- Witness for `call_in_if_branch_fails`: an if branch that sets a string and then
calls a data source. -/
theorem call_in_if_branch_fails_witness :
    Legacy.parseIf 10
        (.mk ⟨.boolS {}, .text ("$cond")⟩
          (.yieldS (.setS none ⟨.stringS {}, .text ("\"x\"")⟩) (fun _ =>
            .yieldS (.callS ⟨.stringS {}, .text ("REQ")⟩ (.stringS {})) (fun r =>
              .done r)))
          none)
        "$context.stash.v1" [] =
      .error ("Calls to services are not supported within an If branch.") :=
  call_in_if_branch_fails 1
    (.mk ⟨.boolS {}, .text ("$cond")⟩
      (.yieldS (.setS none ⟨.stringS {}, .text ("\"x\"")⟩) (fun _ =>
        .yieldS (.callS ⟨.stringS {}, .text ("REQ")⟩ (.stringS {})) (fun r =>
          .done r)))
      none)
    "$context.stash.v1" [] 10
    (Legacy.SetsThenCall.step 0 none ⟨.stringS {}, .text ("\"x\"")⟩ _
      (fun v => Legacy.SetsThenCall.head ⟨.stringS {}, .text ("REQ")⟩ (.stringS {}) _))
    (by omega)

theorem dedupByType_sublist (rs : List VObj) : List.Sublist (dedupByType rs) rs := by
  have h1 := List.filter_sublist (p := fun ir : Nat × VObj =>
    rs.findIdx (fun v => Shape.beq (VObject.getType ir.2) (VObject.getType v)) == ir.1) rs.enum
  have h2 := h1.map Prod.snd
  simpa [dedupByType, List.enum_map_snd] using h2

theorem dedupByType_types_pairwise (rs : List VObj) :
    (dedupByType rs).Pairwise (fun a b => VObject.getType a ≠ VObject.getType b) := by
  have henum : rs.enum.Pairwise (fun x y : Nat × VObj => x.1 ≠ y.1) := by
    have h1 : (rs.enum.map Prod.fst).Nodup := by
      rw [List.enum_map_fst]
      exact List.nodup_range rs.length
    exact (List.pairwise_map.mp h1)
  have hfilter := henum.filter (fun ir : Nat × VObj =>
    rs.findIdx (fun v => Shape.beq (VObject.getType ir.2) (VObject.getType v)) == ir.1)
  have himp : (rs.enum.filter (fun ir : Nat × VObj =>
      rs.findIdx (fun v => Shape.beq (VObject.getType ir.2) (VObject.getType v)) == ir.1)).Pairwise
      (fun x y : Nat × VObj => VObject.getType x.2 ≠ VObject.getType y.2) := by
    refine hfilter.imp_of_mem ?_
    intro x y hx hy hne
    intro hty
    apply hne
    have hxp := (List.mem_filter.mp hx).2
    have hyp := (List.mem_filter.mp hy).2
    simp only [beq_iff_eq] at hxp hyp
    rw [← hxp, ← hyp, hty]
  rw [dedupByType]
  exact List.pairwise_map.mpr himp

/-- C3: lowering an if/else-if/else statement unifies the branch return values —
branch values are collapsed by structural type equality (the surviving type list is
pairwise distinct and drawn from the branches), the overall value is typed by the
single remaining type when exactly one distinct type remains and as a union over the
distinct branch types when two or more remain, and when every branch returns nothing
the if-statement's overall value is `VNothing('null')`. -/
theorem if_branch_return_unification :
    ∀ (returnId : String) (vals : List (Option VObj)) (st : InterpreterState),
      (vals.all (fun v => v.isNone) = true →
        interpretIfResult returnId vals st = .ok (some vNothingNull, st))
      ∧ ((dedupByType (vals.map (fun r =>
            match r with
            | none => vNothingNull
            | some o => o))).Pairwise (fun a b => VObject.getType a ≠ VObject.getType b))
      ∧ (List.Sublist
          (dedupByType (vals.map (fun r =>
            match r with
            | none => vNothingNull
            | some o => o)))
          (vals.map (fun r =>
            match r with
            | none => vNothingNull
            | some o => o)))
      ∧ (∀ (v : VObj) (st' : InterpreterState), vals ≠ [] →
          interpretIfResult returnId vals st = .ok (some v, st') →
          ((∀ t, (dedupByType (vals.map (fun r =>
                match r with
                | none => vNothingNull
                | some o => o))).map VObject.getType = [t] →
              VObject.getType v = t)
           ∧ (2 ≤ (dedupByType (vals.map (fun r =>
                match r with
                | none => vNothingNull
                | some o => o))).length →
              VObject.getType v = .unionS {} none
                ((dedupByType (vals.map (fun r =>
                  match r with
                  | none => vNothingNull
                  | some o => o))).map VObject.getType)))) := by
  intro returnId vals st
  refine ⟨?_, dedupByType_types_pairwise _, dedupByType_sublist _, ?_⟩
  · intro hall
    have hfilter : vals.filter (fun v => v.isSome) = [] := by
      rw [List.filter_eq_nil_iff]
      intro a ha
      have := List.all_eq_true.mp hall a ha
      simp_all [Option.isNone_iff_eq_none]
    simp [interpretIfResult, hfilter]
  · intro v st' hne h
    by_cases hall : (vals.filter (fun v => v.isSome)).length = 0
    · have hres : vNothingNull = v ∧ st = st' := by
        simp [interpretIfResult, hall] at h
        exact h
      obtain ⟨rfl, rfl⟩ := hres
      have hvnone : ∀ r ∈ vals, r = none := by
        intro r hr
        by_contra hns
        have hsome : r.isSome = true := by
          cases r
          · simp at hns
          · rfl
        have : r ∈ vals.filter (fun v => v.isSome) := List.mem_filter.mpr ⟨hr, hsome⟩
        rw [List.length_eq_zero] at hall
        simp [hall] at this
      have hmapped : ∀ y ∈ vals.map (fun r =>
          match r with
          | none => vNothingNull
          | some o => o), y = vNothingNull := by
        intro y hy
        obtain ⟨r, hr, rfl⟩ := List.mem_map.mp hy
        rw [hvnone r hr]
      constructor
      · intro t ht
        have htmem : t ∈ (dedupByType (vals.map (fun r =>
            match r with
            | none => vNothingNull
            | some o => o))).map VObject.getType := by
          rw [ht]; exact List.mem_singleton.mpr rfl
        obtain ⟨y, hy, rfl⟩ := List.mem_map.mp htmem
        have := hmapped y ((dedupByType_sublist _).mem hy)
        rw [this]
      · intro h2
        match hd : dedupByType (vals.map (fun r =>
            match r with
            | none => vNothingNull
            | some o => o)) with
        | [] => rw [hd] at h2; simp at h2
        | [a] => rw [hd] at h2; simp at h2
        | a :: b :: rest =>
          have hpw := dedupByType_types_pairwise (vals.map (fun r =>
            match r with
            | none => vNothingNull
            | some o => o))
          rw [hd] at hpw
          have hab : VObject.getType a ≠ VObject.getType b :=
            (List.pairwise_cons.mp hpw).1 b (by simp)
          have hsub := dedupByType_sublist (vals.map (fun r =>
            match r with
            | none => vNothingNull
            | some o => o))
          rw [hd] at hsub
          have ha := hmapped a (hsub.mem (by simp))
          have hb := hmapped b (hsub.mem (by simp))
          rw [ha, hb] at hab
          exact absurd rfl hab
    · have hcond : ((vals.filter (fun v => v.isSome)).length == 0) = false := by
        simpa using hall
      rw [interpretIfResult] at h
      simp only [hcond, Bool.not_false, if_true] at h
      generalize hds : dedupByType (vals.map (fun r =>
          match r with
          | none => vNothingNull
          | some o => o)) = ds at h ⊢
      match ds with
      | [] =>
        refine ⟨fun t ht => by simp at ht, fun h2 => by simp at h2⟩
      | [r] =>
        simp only [List.length_cons, List.length_nil, Nat.zero_add, beq_self_eq_true,
          if_true, List.headD] at h
        cases hstash : st.stash r none false with
        | error e =>
          rw [hstash] at h
          simp at h
        | ok pr =>
          rw [hstash] at h
          simp only [Except.ok.injEq, Prod.mk.injEq, Option.some.injEq] at h
          refine ⟨fun t ht => ?_, fun h2 => by simp at h2⟩
          rw [← h.1]
          simp only [List.map_cons, List.map_nil, List.cons.injEq] at ht
          rw [← ht.1]
          rfl
      | a :: b :: rest =>
        have hlen : ((a :: b :: rest).length == 1) = false := by
          simp
        rw [hlen] at h
        simp only [Bool.false_eq_true, if_false] at h
        refine ⟨fun t ht => by simp at ht, fun h2 => ?_⟩
        cases hstash : st.stash (VObject.fromExpr (.unionS {} none
            ((a :: b :: rest).map VObject.getType)) (.text returnId)) none false with
        | error e =>
          rw [hstash] at h
          simp at h
        | ok pr =>
          rw [hstash] at h
          simp only [Except.ok.injEq, Prod.mk.injEq, Option.some.injEq] at h
          rw [← h.1]
          rfl

/-- Witness for `if_branch_return_unification`: branch values `[some string, none]`
unify into the union over `string` and `nothing`. -/
theorem if_branch_return_unification_witness :
    VObject.getType (VObject.fromExpr
        (.unionS {} none [.stringS {}, .nothingS {}]) (.text ("$context.stash.var1"))) =
      .unionS {} none
        ((dedupByType ([some ⟨.stringS {}, .text ("$a")⟩, none].map (fun r =>
          match r with
          | none => vNothingNull
          | some o => o))).map VObject.getType) :=
  ((if_branch_return_unification "$local1" [some ⟨.stringS {}, .text ("$a")⟩, none]
      {}).2.2.2
    (VObject.fromExpr (.unionS {} none [.stringS {}, .nothingS {}])
      (.text ("$context.stash.var1")))
    { idCounter := 1, indentDepth := 0,
      template := ["#set($context.stash.var1 = ", "$local1", ")", "\n"] }
    (by simp) (by rfl)).2 (by decide)

theorem identOnly_getLast_ne_bang (s : String) (h : identOnly s = true) :
    s.data.getLast? ≠ some '!' := by
  intro hlast
  have hmem := List.mem_of_getLast?_eq_some hlast
  simp only [identOnly, Bool.and_eq_true, List.all_eq_true] at h
  have := h.2 '!' hmem
  simp [isIdentChar] at this

theorem wfNames_meta (s : Shape) (h : wfNames s = true) :
    nameOk s.meta.graphqlType = true := by
  cases s <;> simp_all [wfNames, Shape.meta]

theorem wfNamesList_mem (l : List Shape) (h : wfNamesList l = true) :
    ∀ x ∈ l, wfNames x = true := by
  induction l with
  | nil => simp
  | cons y ys ih =>
    simp only [wfNamesList, Bool.and_eq_true] at h
    intro x hx
    rcases List.mem_cons.mp hx with rfl | hx'
    · exact h.1
    · exact ih h.2 x hx'

theorem wfNamesMembers_mem (l : List (String × Shape)) (h : wfNamesMembers l = true) :
    ∀ x ∈ l, wfNames x.2 = true := by
  induction l with
  | nil => simp
  | cons y ys ih =>
    obtain ⟨n, s⟩ := y
    simp only [wfNamesMembers, Bool.and_eq_true] at h
    intro x hx
    rcases List.mem_cons.mp hx with rfl | hx'
    · exact h.1
    · exact ih h.2 x hx'

theorem strConcat_getLast (x : String) (c : Char) (tail : String)
    (htail : tail.data = [c]) : (x ++ tail).data.getLast? = some c := by
  rw [String.data_append, htail]
  exact List.getLast?_concat x.data

theorem getTypeAnnotation_bang_aux :
    ∀ fuel : Nat,
      (∀ (s : Shape) (a : String), wfNames s = true → getTypeAnnotation fuel s = .ok a →
        ∃ n, a = n ++ (if isOptional s then "" else "!") ∧ n.data.getLast? ≠ some '!')
      ∧ (∀ (g : Option String) (so : Option Shape) (a : String),
          nameOk g = true → (∀ s' ∈ so, wfNames s' = true) →
          getTypeName fuel g so = .ok a → a.data.getLast? ≠ some '!') := by
  intro fuel
  induction fuel with
  | zero =>
    constructor
    · intro s a _ h
      simp [ getTypeAnnotation] at h
    · intro g so a _ _ h
      simp [getTypeName] at h
  | succ n ih =>
    constructor
    · intro s a hwf h
      rw [ getTypeAnnotation] at h
      cases hname : getTypeName n s.meta.graphqlType
          (if isOptional s && ShapeGuards.isUnionShape s then
            s.unionItems.find? (fun i => !ShapeGuards.isNothingShape i)
          else some s) with
      | error e =>
        rw [hname] at h
        simp at h
      | ok name =>
        rw [hname] at h
        simp only [Except.ok.injEq] at h
        refine ⟨name, h.symm, ?_⟩
        refine ih.2 s.meta.graphqlType _ name (wfNames_meta s hwf) ?_ hname
        intro s' hs'
        by_cases hcond : (isOptional s && ShapeGuards.isUnionShape s) = true
        · rw [if_pos hcond] at hs'
          have hmem := List.mem_of_find?_eq_some hs'
          cases s <;> simp_all [ShapeGuards.isUnionShape, Shape.unionItems]
          · rename_i m fqn items
            exact wfNamesList_mem items (by simp_all [wfNames]) s' hmem
        · rw [if_neg hcond] at hs'
          simp only [Option.mem_def, Option.some.injEq] at hs'
          rw [← hs']
          exact hwf
    · intro g so a hg hso h
      cases g with
      | some gg =>
        simp only [getTypeName, Except.ok.injEq] at h
        rw [← h]
        exact identOnly_getLast_ne_bang gg (by simpa [nameOk] using hg)
      | none =>
        cases so with
        | none => simp [getTypeName] at h
        | some s =>
          have hwf : wfNames s = true := hso s rfl
          cases s with
          | arrayS m items =>
            simp only [getTypeName] at h
            cases hinner : getTypeAnnotation n items with
            | error e => rw [hinner] at h; simp at h
            | ok inner =>
              rw [hinner] at h
              simp only [Except.ok.injEq] at h
              rw [← h]
              exact fun hc => by
                have := strConcat_getLast ("[" ++ inner) ']' "]" rfl
                rw [this] at hc
                simp at hc
          | setS m items =>
            simp only [getTypeName] at h
            cases hinner : getTypeAnnotation n items with
            | error e => rw [hinner] at h; simp at h
            | ok inner =>
              rw [hinner] at h
              simp only [Except.ok.injEq] at h
              rw [← h]
              exact fun hc => by
                have := strConcat_getLast ("[" ++ inner) ']' "]" rfl
                rw [this] at hc
                simp at hc
          | mapS m v => simp [getTypeName] at h
          | stringS m =>
            simp only [getTypeName, Except.ok.injEq] at h
            rw [← h]; decide
          | timestampS m =>
            simp only [getTypeName, Except.ok.injEq] at h
            rw [← h]; decide
          | anyS m =>
            simp only [getTypeName, Except.ok.injEq] at h
            rw [← h]; decide
          | boolS m =>
            simp only [getTypeName, Except.ok.injEq] at h
            rw [← h]; decide
          | integerS m =>
            simp only [getTypeName, Except.ok.injEq] at h
            rw [← h]; decide
          | numberS m =>
            simp only [getTypeName, Except.ok.injEq] at h
            rw [← h]; decide
          | binaryS m => simp [getTypeName] at h
          | nothingS m => simp [getTypeName] at h
          | functionS m args returns => simp [getTypeName] at h
          | recordS m fqn members =>
            cases fqn with
            | none => simp [getTypeName] at h
            | some f =>
              simp only [getTypeName, Except.ok.injEq] at h
              rw [← h]
              refine identOnly_getLast_ne_bang f ?_
              simp only [wfNames, Bool.and_eq_true] at hwf
              simpa [nameOk] using hwf.1.2
          | unionS m fqn items =>
            cases fqn with
            | none => simp [getTypeName] at h
            | some f =>
              simp only [getTypeName, Except.ok.injEq] at h
              rw [← h]
              refine identOnly_getLast_ne_bang f ?_
              simp only [wfNames, Bool.and_eq_true] at hwf
              simpa [nameOk] using hwf.1.2
          | enumS m fqn values =>
            cases fqn with
            | none => simp [getTypeName] at h
            | some f =>
              simp only [getTypeName, Except.ok.injEq] at h
              rw [← h]
              refine identOnly_getLast_ne_bang f ?_
              simp only [wfNames, Bool.and_eq_true] at hwf
              simpa [nameOk] using hwf.2

/-- C4: for every shape with well-formed (identifier-only) names, the SDL annotation
produced by `getTypeAnnotation` ends with the non-null `!` suffix exactly when the
shape is not optional; and `optional(S)` is always optional, so its annotation ends
without `!`. -/
theorem type_annotation_nonnull_bang :
    (∀ (fuel : Nat) (s : Shape) (a : String), wfNames s = true →
      getTypeAnnotation fuel s = .ok a →
      (a.data.getLast? = some '!' ↔ isOptional s = false))
    ∧ (∀ s : Shape, isOptional (optional s) = true) := by
  constructor
  · intro fuel s a hwf h
    obtain ⟨nm, rfl, hnm⟩ := (getTypeAnnotation_bang_aux fuel).1 s a hwf h
    cases hopt : isOptional s with
    | true =>
      simp only [if_true]
      rw [String.append_empty]
      simp only [Bool.true_eq_false, iff_false]
      exact hnm
    | false =>
      simp only [Bool.false_eq_true, if_false]
      have : (nm ++ "!").data.getLast? = some '!' := strConcat_getLast nm '!' "!" rfl
      simp [this]
  · intro s
    cases s <;> rfl

/-- Witness for `type_annotation_nonnull_bang`: the non-optional record `Post` gets the
annotation `Post!`, and `optional(string)` is optional. -/
theorem type_annotation_nonnull_bang_witness :
    (("Post!").data.getLast? = some '!' ↔ isOptional (.recordS {} (some "Post") []) = false)
    ∧ isOptional (optional (.stringS {})) = true :=
  ⟨type_annotation_nonnull_bang.1 10 (.recordS {} (some "Post") []) "Post!"
      (by decide) (by rfl),
   type_annotation_nonnull_bang.2 (.stringS {})⟩

theorem stage_invariant :
    ∀ fuel : Nat,
      (∀ (f : String) (p : Program) (fc : FieldComp) (r : Option VObj) (fc' : FieldComp),
        interpretProgram f fuel p fc = .ok (r, fc') → StageExt f fc fc')
      ∧ (∀ (f : String) (stmt : Stmt) (fc : FieldComp) (r : Option VObj) (fc' : FieldComp),
        interpret f fuel stmt fc = .ok (r, fc') → StageExt f fc fc')
      ∧ (∀ (f : String) (cond : VObj) (thn : Program) (elseB : Option ElseChain)
          (fc : FieldComp) (rid : String) (vs : List (Option VObj)) (fc' : FieldComp),
        parseIfM f fuel cond thn elseB fc = .ok (rid, vs, fc') → StageExt f fc fc')
      ∧ (∀ (f rid : String) (chain : Option ElseChain) (fc : FieldComp)
          (vs : List (Option VObj)) (he : Bool) (fc' : FieldComp),
        parseIfChainM f fuel rid chain fc = .ok (vs, he, fc') → StageExt f fc fc')
      ∧ (∀ (f : String) (p : Program) (fc : FieldComp) (r : Option VObj) (fc' : FieldComp),
        branchWalk f fuel p fc = .ok (r, fc') → StageExt f fc fc')
      ∧ (∀ (f : String) (stmt : Stmt) (fc : FieldComp) (r : Option VObj) (fc' : FieldComp),
        branchStmt f fuel stmt fc = .ok (r, fc') → StageExt f fc fc') := by
  intro fuel
  induction fuel with
  | zero =>
    exact ⟨fun f p fc r fc' h => by simp [interpretProgram] at h,
           fun f stmt fc r fc' h => by simp [interpret] at h,
           fun f c t e fc rid vs fc' h => by simp [parseIfM] at h,
           fun f rid ch fc vs he fc' h => by simp [parseIfChainM] at h,
           fun f p fc r fc' h => by simp [branchWalk] at h,
           fun f stmt fc r fc' h => by simp [branchStmt] at h⟩
  | succ n ih =>
    obtain ⟨ihP, ihS, ihIf, ihChain, ihBW, ihBS⟩ := ih
    have hstep : ∀ (f : String) (fc : FieldComp) (st : InterpreterState),
        StageExt f fc { fc with state := st } :=
      fun f fc st => stageExt_of_eq f rfl rfl
    refine ⟨?_, ?_, ?_, ?_, ?_, ?_⟩
    · -- interpretProgram
      intro f p fc r fc' h
      cases p with
      | done r0 =>
        rw [interpretProgram] at h
        simp only [Except.ok.injEq, Prod.mk.injEq] at h
        rw [← h.2]
        exact stageExt_refl f fc
      | yieldS stmt k =>
        rw [interpretProgram] at h
        split at h
        · simp at h
        · rename_i v1 fc1 heq
          exact stageExt_trans f (ihS f stmt fc v1 fc1 heq) (ihP f (k v1) fc1 r fc' h)
    · -- interpret
      intro f stmt fc r fc' h
      cases stmt with
      | stashS value id lo =>
        rw [interpret] at h
        split at h
        · simp at h
        · rename_i sid st1 heq
          simp only [Except.ok.injEq, Prod.mk.injEq] at h
          rw [← h.2]
          exact hstep f fc st1
      | writeS exprs =>
        rw [interpret] at h
        split at h
        · simp at h
        · rename_i st heq
          simp only [Except.ok.injEq, Prod.mk.injEq] at h
          rw [← h.2]
          exact hstep f fc st
      | forLoop list thn =>
        rw [interpret] at h
        split at h
        · simp at h
        · rename_i st heq
          split at h
          · simp at h
          · rename_i itemShape heqItems
            simp only [] at h
            split at h
            · simp at h
            · rename_i r0 fc1 heqProg
              split at h
              · simp at h
              · rename_i st2 heqEnd
                simp only [Except.ok.injEq, Prod.mk.injEq] at h
                rw [← h.2]
                refine stageExt_trans f (hstep f fc st) ?_
                refine stageExt_trans f
                  (ihP f _ { fc with state := st } r0 fc1 heqProg) ?_
                exact hstep f fc1 st2
      | ifS condition thn elseB =>
        rw [interpret] at h
        split at h
        · simp at h
        · rename_i rid1 vs1 fc1 heqIf
          split at h
          · simp at h
          · rename_i v1 st1 heqRes
            simp only [Except.ok.injEq, Prod.mk.injEq] at h
            rw [← h.2]
            refine stageExt_trans f
              (ihIf f condition thn elseB fc rid1 vs1 fc1 heqIf) ?_
            exact hstep f fc1 st1
      | callS request responseType =>
        rw [interpret] at h
        split at h
        · simp at h
        · rename_i st heqReq
          simp only [Except.ok.injEq, Prod.mk.injEq] at h
          rw [← h.2]
          refine ⟨[⟨f ++ toString (fc.stageCount + 1), st.renderTemplate.1,
            "#set($context.stash." ++ (fc.state.newId "var").1 ++ " = $context.result)\n",
            f ++ toString (fc.stageCount + 1)⟩], by simp, by simp, ?_⟩
          intro i hi
          simp only [List.length_cons, List.length_nil] at hi
          interval_cases i
          simp
    · -- parseIfM
      intro f cond thn elseB fc rid vs fc' h
      rw [parseIfM] at h
      split at h
      · simp at h
      · rename_i st heqW
        split at h
        · simp at h
        · rename_i v1 fc1 heqBW
          split at h
          · simp at h
          · rename_i st2 heqBE
            split at h
            · simp at h
            · rename_i vs2 he2 fc2 heqChain
              split at h
              · simp at h
              · rename_i st3 heqEnd
                simp only [Except.ok.injEq, Prod.mk.injEq] at h
                rw [← h.2.2]
                refine stageExt_trans f (hstep f fc st) ?_
                refine stageExt_trans f
                  (ihBW f thn { fc with state := st } v1 fc1 heqBW) ?_
                refine stageExt_trans f (hstep f fc1 st2) ?_
                refine stageExt_trans f
                  (ihChain _ _ _ _ _ _ _ heqChain) ?_
                exact hstep f fc2 st3
    · -- parseIfChainM
      intro f rid chain fc vs he fc' h
      cases chain with
      | none =>
        rw [parseIfChainM] at h
        simp only [Except.ok.injEq, Prod.mk.injEq] at h
        rw [← h.2.2]
        exact stageExt_refl f fc
      | some c =>
        cases c with
        | els thn =>
          rw [parseIfChainM] at h
          split at h
          · simp at h
          · rename_i st heqW
            split at h
            · simp at h
            · rename_i v1 fc1 heqBW
              split at h
              · simp at h
              · rename_i st2 heqBE
                simp only [Except.ok.injEq, Prod.mk.injEq] at h
                rw [← h.2.2]
                refine stageExt_trans f (hstep f fc st) ?_
                refine stageExt_trans f
                  (ihBW f thn { fc with state := st } v1 fc1 heqBW) ?_
                exact hstep f fc1 st2
        | elseIf condition thn next =>
          rw [parseIfChainM] at h
          split at h
          · simp at h
          · rename_i st heqW
            split at h
            · simp at h
            · rename_i v1 fc1 heqBW
              split at h
              · simp at h
              · rename_i st2 heqBE
                split at h
                · simp at h
                · rename_i vs2 he2 fc2 heqChain
                  simp only [Except.ok.injEq, Prod.mk.injEq] at h
                  rw [← h.2.2]
                  refine stageExt_trans f (hstep f fc st) ?_
                  refine stageExt_trans f
                    (ihBW f thn { fc with state := st } v1 fc1 heqBW) ?_
                  refine stageExt_trans f (hstep f fc1 st2) ?_
                  exact ihChain _ _ _ _ _ _ _ heqChain
    · -- branchWalk
      intro f p fc r fc' h
      cases p with
      | done r0 =>
        rw [branchWalk] at h
        simp only [Except.ok.injEq, Prod.mk.injEq] at h
        rw [← h.2]
        exact stageExt_refl f fc
      | yieldS stmt k =>
        rw [branchWalk] at h
        split at h
        · simp at h
        · rename_i v1 fc1 heq
          exact stageExt_trans f (ihBS f stmt fc v1 fc1 heq) (ihBW f (k v1) fc1 r fc' h)
    · -- branchStmt
      intro f stmt fc r fc' h
      cases stmt with
      | stashS value id lo =>
        rw [branchStmt] at h
        split at h
        · simp at h
        · rename_i sid st1 heq
          simp only [Except.ok.injEq, Prod.mk.injEq] at h
          rw [← h.2]
          exact hstep f fc st1
      | writeS exprs =>
        rw [branchStmt] at h
        split at h
        · simp at h
        · rename_i st heq
          simp only [Except.ok.injEq, Prod.mk.injEq] at h
          rw [← h.2]
          exact hstep f fc st
      | forLoop list thn =>
        rw [branchStmt] at h
        split at h
        · simp at h
        · rename_i st heq
          split at h
          · simp at h
          · rename_i itemShape heqItems
            simp only [] at h
            split at h
            · simp at h
            · rename_i r0 fc1 heqProg
              split at h
              · simp at h
              · rename_i st2 heqEnd
                simp only [Except.ok.injEq, Prod.mk.injEq] at h
                rw [← h.2]
                refine stageExt_trans f (hstep f fc st) ?_
                refine stageExt_trans f
                  (ihBW f _ { fc with state := st } r0 fc1 heqProg) ?_
                exact hstep f fc1 st2
      | ifS condition thn elseB =>
        rw [branchStmt] at h
        split at h
        · simp at h
        · rename_i rid1 vs1 fc1 heqIf
          split at h
          · simp at h
          · rename_i v1 st1 heqRes
            simp only [Except.ok.injEq, Prod.mk.injEq] at h
            rw [← h.2]
            refine stageExt_trans f
              (ihIf f condition thn elseB fc rid1 vs1 fc1 heqIf) ?_
            exact hstep f fc1 st1
      | callS request responseType =>
        rw [branchStmt] at h
        simp at h

/-- C9: pipeline stage names are derived deterministically — the field FQN is the
type name joined to the field name with `_` (every non-identifier character replaced
by `_`), and the k-th emitted stage function is named `{fieldFQN}{k}` with a 1-based
index, for every program driven from a fresh per-field state. -/
theorem stage_names_deterministic :
    ∀ (typeName fieldName : String) (fuel : Nat) (program : Program)
      (r : Option VObj) (fc : FieldComp),
      interpretProgram (fieldFQN typeName fieldName) fuel program {} = .ok (r, fc) →
      (fieldFQN typeName fieldName).data =
          (typeName ++ "_" ++ fieldName).data.map (fun c => if isIdentChar c then c else '_')
        ∧ fc.functions.map (fun fn => fn.name) =
            (List.range fc.functions.length).map (fun i =>
              fieldFQN typeName fieldName ++ toString (i + 1)) := by
  intro tn fn fuel program r fc h
  refine ⟨rfl, ?_⟩
  obtain ⟨ext, hf, hc, hn⟩ := (stage_invariant fuel).1 (fieldFQN tn fn) program {} r fc h
  have hf' : fc.functions = ext := by simpa using hf
  rw [hf']
  apply List.ext_getElem
  · simp
  · intro i h1 h2
    rw [List.getElem_map, List.getElem_map, List.getElem_range]
    have hi : i < ext.length := by simpa using h1
    have hni := hn i hi
    rw [List.get_eq_getElem] at hni
    simpa using hni

/-- Witness for `stage_names_deterministic`: a field `Query.f` (type name `Q`) with two
sequential calls compiles stages named `Q_f1` and `Q_f2`. -/
theorem stage_names_deterministic_witness :
    (fieldFQN "Q" "f").data =
        ("Q" ++ "_" ++ "f").data.map (fun c => if isIdentChar c then c else '_')
      ∧ ([⟨"Q_f1", "REQ1", "#set($context.stash.var1 = $context.result)\n", "Q_f1"⟩,
          ⟨"Q_f2", "REQ2($context.stash.var1)",
            "#set($context.stash.var2 = $context.result)\n", "Q_f2"⟩] : List FnConfig).map
            (fun fn => fn.name) =
          (List.range ([⟨"Q_f1", "REQ1", "#set($context.stash.var1 = $context.result)\n",
              "Q_f1"⟩,
            ⟨"Q_f2", "REQ2($context.stash.var1)",
              "#set($context.stash.var2 = $context.result)\n", "Q_f2"⟩] : List FnConfig).length).map
            (fun i => fieldFQN "Q" "f" ++ toString (i + 1)) :=
  stage_names_deterministic "Q" "f" 20
    (.yieldS (.callS ⟨.stringS {}, .text ("REQ1")⟩ (.stringS {})) (fun r1 =>
      .yieldS (.callS ⟨.stringS {},
          .concatE [.text ("REQ2("), (r1.getD vNothingNull).expr, .text (")")]⟩
        (.stringS {})) (fun r2 => .done r2)))
    (some ⟨.stringS {}, .text ("$context.stash.var2")⟩)
    { state := { idCounter := 2, indentDepth := 0, template := [] },
      functions := [⟨"Q_f1", "REQ1", "#set($context.stash.var1 = $context.result)\n", "Q_f1"⟩,
                    ⟨"Q_f2", "REQ2($context.stash.var1)",
                      "#set($context.stash.var2 = $context.result)\n", "Q_f2"⟩],
      stageCount := 2 }
    (by rfl)

/-- C1: stage threading — (i) a field whose program emitted `N ≥ 2` stage functions
assembles to kind PIPELINE with exactly `N` pipeline functions; (ii) lowering a call
statement registers a stage whose response mapping template `#set`-s a fresh
`$context.stash.<name>` variable and resumes the program with a typed reference to
exactly that variable, so wherever the stage's result is used — the next stage's
request template or the final response template — the same stash variable is
referenced. -/
theorem pipeline_stage_threading :
    (∀ (f : String) (fuel : Nat) (program : Program) (r : Option VObj) (fc : FieldComp)
        (N : Nat) (cfg : ResolverConfig),
      interpretProgram f fuel program {} = .ok (r, fc) →
      fc.functions.length = N → 2 ≤ N →
      assembleResolver r fc = .ok (some cfg) →
      cfg.kind = "PIPELINE" ∧ cfg.pipelineFunctions.map List.length = some N)
    ∧ (∀ (f : String) (fuel : Nat) (request : VObj) (responseType : Shape)
        (fc : FieldComp) (v : Option VObj) (fc' : FieldComp),
      interpret f fuel (.callS request responseType) fc = .ok (v, fc') →
      ∃ name reqT,
        v = some (VObject.fromExpr responseType (.text ("$context.stash." ++ name)))
        ∧ fc'.functions = fc.functions ++
            [⟨f ++ toString (fc.stageCount + 1), reqT,
              "#set($context.stash." ++ name ++ " = $context.result)\n",
              f ++ toString (fc.stageCount + 1)⟩]
        ∧ fc'.stageCount = fc.stageCount + 1) := by
  constructor
  · intro f fuel program r fc N cfg hrun hlen h2 hasm
    obtain ⟨hkind, _, hfns⟩ := assemble_pipeline_aux r fc cfg (by omega) hasm
    refine ⟨hkind, ?_⟩
    rw [hfns]
    simp [hlen]
  · intro f fuel request responseType fc v fc' h
    cases fuel with
    | zero => simp [interpret] at h
    | succ n =>
      rw [interpret] at h
      split at h
      · simp at h
      · rename_i st heqReq
        simp only [Except.ok.injEq, Prod.mk.injEq] at h
        refine ⟨(fc.state.newId "var").1, st.renderTemplate.1, h.1.symm, ?_, ?_⟩
        · rw [← h.2]
        · rw [← h.2]

/-- Witness for `pipeline_stage_threading`: the two-call program compiles to a
PIPELINE of 2 functions, and its first call resumes the program with
`$context.stash.var1` — the same variable its response template sets. -/
theorem pipeline_stage_threading_witness :
    (({ kind := "PIPELINE", requestMappingTemplate := some "null",
        responseMappingTemplate := some "$util.toJson($context.stash.var2)",
        pipelineFunctions := some
          [⟨"Q_f1", "REQ1", "#set($context.stash.var1 = $context.result)\n\nnull", "Q_f1"⟩,
           ⟨"Q_f2", "REQ2($context.stash.var1)",
             "#set($context.stash.var2 = $context.result)\n\nnull", "Q_f2"⟩] }
        : ResolverConfig).kind = "PIPELINE"
      ∧ ({ kind := "PIPELINE", requestMappingTemplate := some "null",
           responseMappingTemplate := some "$util.toJson($context.stash.var2)",
           pipelineFunctions := some
             [⟨"Q_f1", "REQ1", "#set($context.stash.var1 = $context.result)\n\nnull", "Q_f1"⟩,
              ⟨"Q_f2", "REQ2($context.stash.var1)",
                "#set($context.stash.var2 = $context.result)\n\nnull", "Q_f2"⟩] }
          : ResolverConfig).pipelineFunctions.map List.length = some 2)
    ∧ ∃ name reqT,
        (some (VObject.fromExpr (.stringS {}) (.text ("$context.stash.var1"))) :
            Option VObj) =
          some (VObject.fromExpr (.stringS {}) (.text ("$context.stash." ++ name)))
        ∧ ([⟨"Q_f1", "REQ1", "#set($context.stash.var1 = $context.result)\n", "Q_f1"⟩]
            : List FnConfig) = [] ++
            [⟨"Q_f" ++ toString (0 + 1), reqT,
              "#set($context.stash." ++ name ++ " = $context.result)\n",
              "Q_f" ++ toString (0 + 1)⟩]
        ∧ 1 = 0 + 1 :=
  ⟨pipeline_stage_threading.1 "Q_f" 20
    (.yieldS (.callS ⟨.stringS {}, .text ("REQ1")⟩ (.stringS {})) (fun r1 =>
      .yieldS (.callS ⟨.stringS {},
          .concatE [.text ("REQ2("), (r1.getD vNothingNull).expr, .text (")")]⟩
        (.stringS {})) (fun r2 => .done r2)))
    (some ⟨.stringS {}, .text ("$context.stash.var2")⟩)
    { state := { idCounter := 2, indentDepth := 0, template := [] },
      functions := [⟨"Q_f1", "REQ1", "#set($context.stash.var1 = $context.result)\n", "Q_f1"⟩,
                    ⟨"Q_f2", "REQ2($context.stash.var1)",
                      "#set($context.stash.var2 = $context.result)\n", "Q_f2"⟩],
      stageCount := 2 }
    2
    { kind := "PIPELINE", requestMappingTemplate := some "null",
      responseMappingTemplate := some "$util.toJson($context.stash.var2)",
      pipelineFunctions := some
        [⟨"Q_f1", "REQ1", "#set($context.stash.var1 = $context.result)\n\nnull", "Q_f1"⟩,
         ⟨"Q_f2", "REQ2($context.stash.var1)",
           "#set($context.stash.var2 = $context.result)\n\nnull", "Q_f2"⟩] }
    (by rfl) (by rfl) (by omega) (by rfl),
   pipeline_stage_threading.2 "Q_f" 20 ⟨.stringS {}, .text ("REQ1")⟩ (.stringS {})
    { state := {}, functions := [], stageCount := 0 }
    (some (VObject.fromExpr (.stringS {}) (.text ("$context.stash.var1"))))
    { state := { idCounter := 1, indentDepth := 0, template := [] },
      functions := [⟨"Q_f1", "REQ1", "#set($context.stash.var1 = $context.result)\n", "Q_f1"⟩],
      stageCount := 1 }
    (by rfl)⟩

/-! ## C5: FQN dedup of schema synthesis -/

theorem identOnly_chars {s : String} (h : identOnly s = true) :
    ∀ c ∈ s.data, isIdentChar c = true := by
  simp only [identOnly, Bool.and_eq_true] at h
  exact fun c hc => (List.all_eq_true.mp h.2) c hc

theorem nil_isPrefixOf (l : List Char) : (([] : List Char).isPrefixOf l) = true := by
  cases l <;> rfl

/-- A space-terminated run of identifier characters is a Boolean prefix of another
space-terminated run (with any tail) exactly when the runs agree. -/
theorem identMarker : ∀ (g f t : List Char),
    (∀ c ∈ g, isIdentChar c = true) → (∀ c ∈ f, isIdentChar c = true) →
    ((g ++ [' ']).isPrefixOf (f ++ ' ' :: t)) = (g == f) := by
  intro g
  induction g with
  | nil =>
    intro f t _ hf
    cases f with
    | nil =>
      show ((' ' == ' ') && (([] : List Char).isPrefixOf t)) = true
      rw [beq_self_eq_true, nil_isPrefixOf]
      rfl
    | cons c f1 =>
      show ((' ' == c) && _) = false
      have hc : (' ' == c) = false := by
        have := hf c (List.mem_cons_self _ _)
        cases hcc : (' ' == c) with
        | false => rfl
        | true =>
          have : isIdentChar ' ' = true := by rw [beq_iff_eq.mp hcc]; exact this
          exact absurd this (by decide)
      rw [hc]; rfl
  | cons a g1 ih =>
    intro f t hg hf
    cases f with
    | nil =>
      show ((a == ' ') && _) = false
      have ha : (a == ' ') = false := by
        have := hg a (List.mem_cons_self _ _)
        cases haa : (a == ' ') with
        | false => rfl
        | true =>
          have h2 : isIdentChar ' ' = true := by rw [← beq_iff_eq.mp haa]; exact this
          exact absurd h2 (by decide)
      rw [ha]; rfl
    | cons c f1 =>
      show ((a == c) && ((g1 ++ [' ']).isPrefixOf (f1 ++ ' ' :: t))) = ((a == c) && (g1 == f1))
      rw [ih f1 t (fun x hx => hg x (List.mem_cons_of_mem _ hx))
        (fun x hx => hf x (List.mem_cons_of_mem _ hx))]

theorem isPrefixOf_append_same : ∀ (kw x y : List Char),
    ((kw ++ x).isPrefixOf (kw ++ y)) = x.isPrefixOf y := by
  intro kw
  induction kw with
  | nil => intro x y; rfl
  | cons a kw1 ih =>
    intro x y
    show ((a == a) && ((kw1 ++ x).isPrefixOf (kw1 ++ y))) = _
    rw [beq_self_eq_true, ih x y, Bool.true_and]

theorem isPrefixOf_cons_ne {a b : Char} (l1 l2 : List Char) (h : (a == b) = false) :
    ((a :: l1).isPrefixOf (b :: l2)) = false := by
  show ((a == b) && _) = false
  rw [h]; rfl

theorem string_data_inj {s t : String} (h : s.data = t.data) : s = t := by
  cases s; cases t; exact congrArg String.mk h

/-- One keyword-marker disjunct of `isBlockFor`, evaluated against a block built from
the same keyword: it holds exactly when the tested name equals the block name. -/
theorem marker_same (kw g f : String) (rest : List Char)
    (hg : identOnly g = true) (hf : identOnly f = true) :
    ((kw ++ g ++ " ").toList.isPrefixOf (kw.data ++ (f.data ++ (' ' :: rest)))) = (g == f) := by
  have h1 : (kw ++ g ++ " ").toList = kw.data ++ (g.data ++ [' ']) := by
    show (kw.data ++ g.data) ++ [' '] = _
    rw [List.append_assoc]
  rw [h1, isPrefixOf_append_same, identMarker g.data f.data rest
    (identOnly_chars hg) (identOnly_chars hf)]
  cases hgf : g == f with
  | true => rw [beq_iff_eq.mp hgf]; exact beq_self_eq_true _
  | false =>
    cases hd : (g.data == f.data) with
    | false => rfl
    | true =>
      have : g = f := string_data_inj (beq_iff_eq.mp hd)
      rw [this, beq_self_eq_true] at hgf
      exact absurd hgf (by simp)

theorem isBlockFor_type_block (g f : String) (rest : List Char) (b : String)
    (hb : b.data = "type ".data ++ (f.data ++ (' ' :: rest)))
    (hg : identOnly g = true) (hf : identOnly f = true) :
    isBlockFor g b = true ↔ g = f := by
  have hbt : b.toList = "type ".data ++ (f.data ++ (' ' :: rest)) := hb
  have h1 := marker_same "type " g f rest hg hf
  have h2 : (("enum " ++ g ++ " ").toList.isPrefixOf b.toList) = false := by
    rw [hbt]
    show (('e' :: (("num ".data ++ g.data) ++ [' '])).isPrefixOf
      ('t' :: ("ype ".data ++ (f.data ++ (' ' :: rest))))) = false
    exact isPrefixOf_cons_ne _ _ (by decide)
  have h3 : (("union " ++ g ++ " ").toList.isPrefixOf b.toList) = false := by
    rw [hbt]
    show (('u' :: (("nion ".data ++ g.data) ++ [' '])).isPrefixOf
      ('t' :: ("ype ".data ++ (f.data ++ (' ' :: rest))))) = false
    exact isPrefixOf_cons_ne _ _ (by decide)
  have h4 : (("input " ++ g ++ " ").toList.isPrefixOf b.toList) = false := by
    rw [hbt]
    show (('i' :: (("nput ".data ++ g.data) ++ [' '])).isPrefixOf
      ('t' :: ("ype ".data ++ (f.data ++ (' ' :: rest))))) = false
    exact isPrefixOf_cons_ne _ _ (by decide)
  unfold isBlockFor
  rw [h2, h3, h4, hbt, h1]
  simp only [Bool.or_false]
  exact beq_iff_eq

theorem isBlockFor_enum_block (g f : String) (rest : List Char) (b : String)
    (hb : b.data = "enum ".data ++ (f.data ++ (' ' :: rest)))
    (hg : identOnly g = true) (hf : identOnly f = true) :
    isBlockFor g b = true ↔ g = f := by
  have hbt : b.toList = "enum ".data ++ (f.data ++ (' ' :: rest)) := hb
  have h1 := marker_same "enum " g f rest hg hf
  have h2 : (("type " ++ g ++ " ").toList.isPrefixOf b.toList) = false := by
    rw [hbt]
    show (('t' :: (("ype ".data ++ g.data) ++ [' '])).isPrefixOf
      ('e' :: ("num ".data ++ (f.data ++ (' ' :: rest))))) = false
    exact isPrefixOf_cons_ne _ _ (by decide)
  have h3 : (("union " ++ g ++ " ").toList.isPrefixOf b.toList) = false := by
    rw [hbt]
    show (('u' :: (("nion ".data ++ g.data) ++ [' '])).isPrefixOf
      ('e' :: ("num ".data ++ (f.data ++ (' ' :: rest))))) = false
    exact isPrefixOf_cons_ne _ _ (by decide)
  have h4 : (("input " ++ g ++ " ").toList.isPrefixOf b.toList) = false := by
    rw [hbt]
    show (('i' :: (("nput ".data ++ g.data) ++ [' '])).isPrefixOf
      ('e' :: ("num ".data ++ (f.data ++ (' ' :: rest))))) = false
    exact isPrefixOf_cons_ne _ _ (by decide)
  unfold isBlockFor
  rw [h2, h3, h4, hbt, h1]
  simp only [Bool.or_false, Bool.false_or]
  exact beq_iff_eq

theorem isBlockFor_union_block (g f : String) (rest : List Char) (b : String)
    (hb : b.data = "union ".data ++ (f.data ++ (' ' :: rest)))
    (hg : identOnly g = true) (hf : identOnly f = true) :
    isBlockFor g b = true ↔ g = f := by
  have hbt : b.toList = "union ".data ++ (f.data ++ (' ' :: rest)) := hb
  have h1 := marker_same "union " g f rest hg hf
  have h2 : (("type " ++ g ++ " ").toList.isPrefixOf b.toList) = false := by
    rw [hbt]
    show (('t' :: (("ype ".data ++ g.data) ++ [' '])).isPrefixOf
      ('u' :: ("nion ".data ++ (f.data ++ (' ' :: rest))))) = false
    exact isPrefixOf_cons_ne _ _ (by decide)
  have h3 : (("enum " ++ g ++ " ").toList.isPrefixOf b.toList) = false := by
    rw [hbt]
    show (('e' :: (("num ".data ++ g.data) ++ [' '])).isPrefixOf
      ('u' :: ("nion ".data ++ (f.data ++ (' ' :: rest))))) = false
    exact isPrefixOf_cons_ne _ _ (by decide)
  have h4 : (("input " ++ g ++ " ").toList.isPrefixOf b.toList) = false := by
    rw [hbt]
    show (('i' :: (("nput ".data ++ g.data) ++ [' '])).isPrefixOf
      ('u' :: ("nion ".data ++ (f.data ++ (' ' :: rest))))) = false
    exact isPrefixOf_cons_ne _ _ (by decide)
  unfold isBlockFor
  rw [h2, h3, h4, hbt, h1]
  simp only [Bool.or_false, Bool.false_or]
  exact beq_iff_eq

theorem isBlockFor_input_block (g f : String) (rest : List Char) (b : String)
    (hb : b.data = "input ".data ++ (f.data ++ (' ' :: rest)))
    (hg : identOnly g = true) (hf : identOnly f = true) :
    isBlockFor g b = true ↔ g = f := by
  have hbt : b.toList = "input ".data ++ (f.data ++ (' ' :: rest)) := hb
  have h1 := marker_same "input " g f rest hg hf
  have h2 : (("type " ++ g ++ " ").toList.isPrefixOf b.toList) = false := by
    rw [hbt]
    show (('t' :: (("ype ".data ++ g.data) ++ [' '])).isPrefixOf
      ('i' :: ("nput ".data ++ (f.data ++ (' ' :: rest))))) = false
    exact isPrefixOf_cons_ne _ _ (by decide)
  have h3 : (("enum " ++ g ++ " ").toList.isPrefixOf b.toList) = false := by
    rw [hbt]
    show (('e' :: (("num ".data ++ g.data) ++ [' '])).isPrefixOf
      ('i' :: ("nput ".data ++ (f.data ++ (' ' :: rest))))) = false
    exact isPrefixOf_cons_ne _ _ (by decide)
  have h4 : (("union " ++ g ++ " ").toList.isPrefixOf b.toList) = false := by
    rw [hbt]
    show (('u' :: (("nion ".data ++ g.data) ++ [' '])).isPrefixOf
      ('i' :: ("nput ".data ++ (f.data ++ (' ' :: rest))))) = false
    exact isPrefixOf_cons_ne _ _ (by decide)
  unfold isBlockFor
  rw [h2, h3, h4, hbt, h1]
  simp only [Bool.or_false, Bool.false_or]
  exact beq_iff_eq

theorem schemaExt_refl (st : SchemaState) : SchemaExt st st :=
  ⟨[], [], by simp, by simp, List.nodup_nil, by simp, rfl, by simp⟩

theorem schemaExt_of_eq {st st2 : SchemaState} (h : st2 = st) : SchemaExt st st2 :=
  h ▸ schemaExt_refl st

theorem schemaExt_trans {st1 st2 st3 : SchemaState}
    (h1 : SchemaExt st1 st2) (h2 : SchemaExt st2 st3) : SchemaExt st1 st3 := by
  obtain ⟨s1, b1, hseen1, hblk1, hnd1, hfresh1, hlen1, hcnt1⟩ := h1
  obtain ⟨s2, b2, hseen2, hblk2, hnd2, hfresh2, hlen2, hcnt2⟩ := h2
  refine ⟨s1 ++ s2, b1 ++ b2, ?_, ?_, ?_, ?_, ?_, ?_⟩
  · rw [hseen2, hseen1, List.append_assoc]
  · rw [hblk2, hblk1, List.append_assoc]
  · rw [List.nodup_append]
    refine ⟨hnd1, hnd2, ?_⟩
    intro x hx1 hx2
    have hx3 := (hfresh2 x hx2).1
    rw [hseen1] at hx3
    exact hx3 (List.mem_append_right _ hx1)
  · intro f hf
    rcases List.mem_append.mp hf with h | h
    · exact hfresh1 f h
    · refine ⟨?_, (hfresh2 f h).2⟩
      intro hmem
      exact (hfresh2 f h).1 (hseen1 ▸ List.mem_append_left _ hmem)
  · simp [hlen1, hlen2]
  · intro f hfi
    rw [List.countP_append, hcnt1 f hfi, hcnt2 f hfi]
    by_cases h1m : f ∈ s1
    · have h2m : f ∉ s2 := by
        intro h2m
        exact (hfresh2 f h2m).1 (hseen1 ▸ List.mem_append_right _ h1m)
      simp [h1m, h2m]
    · by_cases h2m : f ∈ s2
      · simp [h1m, h2m]
      · simp [h1m, h2m]

theorem schemaExt_single (st : SchemaState) (f block : String)
    (hf : identOnly f = true) (hmem : f ∉ st.seenDataTypes)
    (hblock : ∀ g, identOnly g = true → (isBlockFor g block = true ↔ g = f)) :
    SchemaExt st ⟨st.seenDataTypes ++ [f], st.blocks ++ [block]⟩ := by
  refine ⟨[f], [block], rfl, rfl, List.nodup_singleton f, ?_, rfl, ?_⟩
  · intro g hg
    rw [List.mem_singleton] at hg
    subst hg
    exact ⟨hmem, hf⟩
  · intro g hgi
    have hc : [block].countP (isBlockFor g) = if isBlockFor g block then 1 else 0 := by
      simp [List.countP_cons]
    rw [hc]
    by_cases hgf : g = f
    · subst hgf
      rw [if_pos ((hblock g hgi).mpr rfl)]
      simp
    · have hb : isBlockFor g block = false := by
        cases hb : isBlockFor g block with
        | false => rfl
        | true => exact absurd ((hblock g hgi).mp hb) hgf
      rw [hb]
      simp [hgf]

/-- `parseInputType` pushes the record FQN onto the seen set *before* recursing into
its members and appends the `input` block only *after* the recursion: the combined
step still satisfies the schema-emission contract. -/
theorem schemaExt_input (st st2 : SchemaState) (f block : String)
    (hf : identOnly f = true) (hmem : f ∉ st.seenDataTypes)
    (hext : SchemaExt ⟨st.seenDataTypes ++ [f], st.blocks⟩ st2)
    (hblock : ∀ g, identOnly g = true → (isBlockFor g block = true ↔ g = f)) :
    SchemaExt st ⟨st2.seenDataTypes, st2.blocks ++ [block]⟩ := by
  obtain ⟨s2, b2, hseen, hblk, hnd, hfresh, hlen, hcnt⟩ := hext
  have hseen2 : st2.seenDataTypes = (st.seenDataTypes ++ [f]) ++ s2 := hseen
  have hblk2 : st2.blocks = st.blocks ++ b2 := hblk
  have hfresh2 : ∀ g ∈ s2, g ∉ st.seenDataTypes ++ [f] ∧ identOnly g = true := hfresh
  have hfns : f ∉ s2 := by
    intro hfs
    exact (hfresh2 f hfs).1 (List.mem_append_right _ (List.mem_singleton_self f))
  refine ⟨f :: s2, b2 ++ [block], ?_, ?_, ?_, ?_, ?_, ?_⟩
  · rw [hseen2, List.append_assoc, List.singleton_append]
  · show st2.blocks ++ [block] = st.blocks ++ (b2 ++ [block])
    rw [hblk2, List.append_assoc]
  · rw [List.nodup_cons]
    exact ⟨hfns, hnd⟩
  · intro g hg
    rcases List.mem_cons.mp hg with rfl | hg2
    · exact ⟨hmem, hf⟩
    · refine ⟨?_, (hfresh2 g hg2).2⟩
      intro hmem2
      exact (hfresh2 g hg2).1 (List.mem_append_left _ hmem2)
  · simp [hlen]
  · intro g hgi
    rw [List.countP_append, hcnt g hgi]
    have hc : [block].countP (isBlockFor g) = if isBlockFor g block then 1 else 0 := by
      simp [List.countP_cons]
    rw [hc]
    by_cases hgf : g = f
    · subst hgf
      simp [hfns, (hblock g hgi).mpr rfl]
    · have hb : isBlockFor g block = false := by
        cases hb : isBlockFor g block with
        | false => rfl
        | true => exact absurd ((hblock g hgi).mp hb) hgf
      rw [hb]
      by_cases hg2 : g ∈ s2
      · simp [hg2, List.mem_cons]
      · simp [hg2, List.mem_cons, hgf]

theorem lookup_mem {α β : Type} [BEq α] [LawfulBEq α] :
    ∀ {l : List (α × β)} {k : α} {v : β}, l.lookup k = some v → (k, v) ∈ l := by
  intro l
  induction l with
  | nil => intro k v h; simp [List.lookup] at h
  | cons hd tl ih =>
    intro k v h
    obtain ⟨k1, v1⟩ := hd
    rw [List.lookup] at h
    cases hk : k == k1 with
    | true =>
      rw [hk] at h
      simp only [] at h
      obtain rfl : v1 = v := by exact Option.some.inj h
      obtain rfl : k = k1 := by exact beq_iff_eq.mp hk
      exact List.mem_cons_self _ _
    | false =>
      rw [hk] at h
      simp only [] at h
      exact List.mem_cons_of_mem _ (ih h)

theorem wfIndex_lookup {index : List (String × TypeSpec)} (hidx : wfIndex index = true)
    {f : String} {ts : TypeSpec} (h : index.lookup f = some ts) :
    identOnly f = true ∧ Shape.FQNof ts.type = some f
      ∧ wfNames ts.type = true ∧ wfNamesMembers ts.fields = true := by
  have hmem : (f, ts) ∈ index := lookup_mem h
  have hall := (List.all_eq_true.mp hidx) _ hmem
  simp only [Bool.and_eq_true] at hall
  exact ⟨hall.1.1.1, beq_iff_eq.mp hall.1.1.2, hall.1.2, hall.2⟩

theorem wfNamesList_map_members : ∀ ms : List (String × Shape),
    wfNamesMembers ms = true → wfNamesList (ms.map (fun fs => fs.2)) = true := by
  intro ms
  induction ms with
  | nil => intro _; rfl
  | cons hd tl ih =>
    obtain ⟨n, s⟩ := hd
    intro h
    simp only [wfNamesMembers, Bool.and_eq_true] at h
    show (wfNames s && wfNamesList (tl.map (fun fs => fs.2))) = true
    rw [h.1, ih h.2]
    rfl

/-- A `type` block produced by `generateTypeSignature` opens with the keyword, then
the record FQN, then a space. -/
theorem generateTypeSignature_data (fuel : Nat) (ts : TypeSpec)
    (dirs : List (String × List String)) (block : String) (f : String)
    (h : generateTypeSignature fuel ts dirs = .ok block)
    (hfqn : Shape.FQNof ts.type = some f) :
    ∃ rest : List Char, block.data = "type ".data ++ (f.data ++ (' ' :: rest)) := by
  rw [generateTypeSignature] at h
  split at h
  · simp at h
  · rename_i lines heqLines
    simp only [Except.ok.injEq] at h
    subst h
    refine ⟨'\x7b' :: '\n' :: ((String.intercalate "\n" lines).data ++ "\n\x7d".data), ?_⟩
    rw [hfqn]
    have hsp : ∀ W : List Char, (" \x7b\n").data ++ W = ' ' :: '\x7b' :: '\n' :: W :=
      fun _ => rfl
    simp only [Option.getD_some, String.data_append, List.append_assoc, hsp]
    rfl

/-- The seen-set/SDL-block invariant of the schema synthesizer: under a well-formed
type index and identifier-only names, every successful run of the `parseType` family
appends only fresh FQNs and exactly one block per appended FQN. -/
theorem schemaExt_invariant (index : List (String × TypeSpec)) (hidx : wfIndex index = true) :
    ∀ fuel : Nat,
      (∀ (shape : Shape) (st st2 : SchemaState), wfNames shape = true →
        parseType fuel index shape st = .ok st2 → SchemaExt st st2)
      ∧ (∀ (shapes : List Shape) (st st2 : SchemaState), wfNamesList shapes = true →
        parseTypeList fuel index shapes st = .ok st2 → SchemaExt st st2)
      ∧ (∀ (shape : Shape) (st st2 : SchemaState), wfNames shape = true →
        parseInputType fuel index shape st = .ok st2 → SchemaExt st st2)
      ∧ (∀ (shapes : List Shape) (st st2 : SchemaState), wfNamesList shapes = true →
        parseInputTypeList fuel index shapes st = .ok st2 → SchemaExt st st2) := by
  intro fuel
  induction fuel with
  | zero =>
    exact ⟨fun s st st2 _ h => by simp [parseType] at h,
           fun s st st2 _ h => by simp [parseTypeList] at h,
           fun s st st2 _ h => by simp [parseInputType] at h,
           fun s st st2 _ h => by simp [parseInputTypeList] at h⟩
  | succ n ih =>
    obtain ⟨ihT, ihTL, ihIT, ihITL⟩ := ih
    refine ⟨?_, ?_, ?_, ?_⟩
    · -- parseType
      intro shape st st2 hwf h
      cases shape with
      | stringS m =>
        exact schemaExt_of_eq (Except.ok.inj h).symm
      | integerS m =>
        exact schemaExt_of_eq (Except.ok.inj h).symm
      | numberS m =>
        exact schemaExt_of_eq (Except.ok.inj h).symm
      | boolS m =>
        exact schemaExt_of_eq (Except.ok.inj h).symm
      | timestampS m =>
        exact schemaExt_of_eq (Except.ok.inj h).symm
      | binaryS m =>
        exact schemaExt_of_eq (Except.ok.inj h).symm
      | anyS m =>
        exact schemaExt_of_eq (Except.ok.inj h).symm
      | nothingS m =>
        exact schemaExt_of_eq (Except.ok.inj h).symm
      | setS m items =>
        exact schemaExt_of_eq (Except.ok.inj h).symm
      | mapS m values =>
        exact schemaExt_of_eq (Except.ok.inj h).symm
      | arrayS m items =>
        rw [parseType] at h
        simp only [wfNames, Bool.and_eq_true] at hwf
        exact ihT items st st2 hwf.2 h
      | recordS m fqn members =>
        cases fqn with
        | none =>
          rw [parseType] at h
          simp at h
        | some f =>
          rw [parseType] at h
          split at h
          · rename_i hc
            exact schemaExt_of_eq (Except.ok.inj h).symm
          · rename_i hc
            simp only [] at h
            split at h
            · simp at h
            · rename_i ts heqLookup
              split at h
              · simp at h
              · rename_i block heqGen
                obtain ⟨hident, hfqn, hwt, hwm⟩ := wfIndex_lookup hidx heqLookup
                obtain ⟨rest, hbd⟩ :=
                  generateTypeSignature_data n ts _ block f heqGen hfqn
                have hmem : f ∉ st.seenDataTypes := by simpa using hc
                refine schemaExt_trans (schemaExt_single st f block hident hmem ?_)
                  (ihTL _ _ _ (wfNamesList_map_members ts.fields hwm) h)
                intro g hg
                exact isBlockFor_type_block g f rest block hbd hg hident
      | unionS m fqn items =>
        cases fqn with
        | none =>
          rw [parseType] at h
          split at h
          · simp at h
          · rename_i st1 heqL
            simp only [wfNames, Bool.and_eq_true] at hwf
            have hx1 : SchemaExt st st1 := ihTL items st st1 hwf.2 heqL
            split at h
            · simp at h
            · exact schemaExt_trans hx1 (schemaExt_of_eq (Except.ok.inj h).symm)
        | some f =>
          rw [parseType] at h
          split at h
          · simp at h
          · rename_i st1 heqL
            simp only [wfNames, Bool.and_eq_true] at hwf
            have hx1 : SchemaExt st st1 := ihTL items st st1 hwf.2 heqL
            split at h
            · split at h
              · simp at h
              · rename_i s hs
                obtain rfl : f = s := Option.some.inj hs
                split at h
                · rename_i hc
                  exact schemaExt_trans hx1 (schemaExt_of_eq (Except.ok.inj h).symm)
                · rename_i hc
                  have hident : identOnly f = true := hwf.1.2
                  have hmem : f ∉ st1.seenDataTypes := by simpa using hc
                  have hbd : ("union " ++ f ++ " = "
                        ++ String.intercalate " | " (items.filterMap Shape.FQNof) ++ ";").data
                      = "union ".data ++ (f.data ++ (' ' :: ('=' :: ' ' ::
                        ((String.intercalate " | " (items.filterMap Shape.FQNof)).data
                          ++ ";".data)))) := by
                    have hsp : ∀ W : List Char, (" = ").data ++ W = ' ' :: '=' :: ' ' :: W :=
                      fun _ => rfl
                    simp only [String.data_append, List.append_assoc, hsp]
                    rfl
                  refine schemaExt_trans hx1 (schemaExt_trans
                    (schemaExt_single st1 f _ hident hmem ?_)
                    (schemaExt_of_eq (Except.ok.inj h).symm))
                  intro g hg
                  exact isBlockFor_union_block g f _ _ hbd hg hident
            · exact schemaExt_trans hx1 (schemaExt_of_eq (Except.ok.inj h).symm)
      | enumS m fqn values =>
        cases fqn with
        | none =>
          rw [parseType] at h
          simp at h
        | some f =>
          rw [parseType] at h
          split at h
          · rename_i hc
            exact schemaExt_of_eq (Except.ok.inj h).symm
          · rename_i hc
            simp only [wfNames, Bool.and_eq_true] at hwf
            have hident : identOnly f = true := hwf.2
            have hmem : f ∉ st.seenDataTypes := by simpa using hc
            have hbd : ("enum " ++ f ++ " \x7b\n  "
                  ++ String.intercalate "\n  " values ++ "\n\x7d").data
                = "enum ".data ++ (f.data ++ (' ' :: ('\x7b' :: '\n' :: ' ' :: ' ' ::
                  ((String.intercalate "\n  " values).data ++ "\n\x7d".data)))) := by
              have hsp : ∀ W : List Char,
                  (" \x7b\n  ").data ++ W = ' ' :: '\x7b' :: '\n' :: ' ' :: ' ' :: W :=
                fun _ => rfl
              simp only [String.data_append, List.append_assoc, hsp]
              rfl
            refine schemaExt_trans (schemaExt_single st f _ hident hmem ?_)
              (schemaExt_of_eq (Except.ok.inj h).symm)
            intro g hg
            exact isBlockFor_enum_block g f _ _ hbd hg hident
      | functionS m args returns =>
        rw [parseType] at h
        split at h
        · simp at h
        · rename_i st1 heqA
          simp only [wfNames, Bool.and_eq_true] at hwf
          exact schemaExt_trans
            (ihITL _ _ _ (wfNamesList_map_members args hwf.1.2) heqA)
            (ihT returns st1 st2 hwf.2 h)
    · -- parseTypeList
      intro shapes st st2 hwf h
      cases shapes with
      | nil =>
        rw [parseTypeList] at h
        exact schemaExt_of_eq (Except.ok.inj h).symm
      | cons s ss =>
        rw [parseTypeList] at h
        split at h
        · simp at h
        · rename_i st1 heqS
          simp only [wfNamesList, Bool.and_eq_true] at hwf
          exact schemaExt_trans (ihT s st st1 hwf.1 heqS) (ihTL ss st1 st2 hwf.2 h)
    · -- parseInputType
      intro shape st st2 hwf h
      cases shape with
      | stringS m =>
        exact schemaExt_of_eq (Except.ok.inj h).symm
      | integerS m =>
        exact schemaExt_of_eq (Except.ok.inj h).symm
      | numberS m =>
        exact schemaExt_of_eq (Except.ok.inj h).symm
      | boolS m =>
        exact schemaExt_of_eq (Except.ok.inj h).symm
      | timestampS m =>
        exact schemaExt_of_eq (Except.ok.inj h).symm
      | binaryS m =>
        exact schemaExt_of_eq (Except.ok.inj h).symm
      | anyS m =>
        exact schemaExt_of_eq (Except.ok.inj h).symm
      | nothingS m =>
        exact schemaExt_of_eq (Except.ok.inj h).symm
      | functionS m args returns =>
        exact schemaExt_of_eq (Except.ok.inj h).symm
      | arrayS m items =>
        rw [parseInputType] at h
        simp only [wfNames, Bool.and_eq_true] at hwf
        exact ihIT items st st2 hwf.2 h
      | setS m items =>
        rw [parseInputType] at h
        simp only [wfNames, Bool.and_eq_true] at hwf
        exact ihIT items st st2 hwf.2 h
      | mapS m values =>
        rw [parseInputType] at h
        simp only [wfNames, Bool.and_eq_true] at hwf
        exact ihIT values st st2 hwf.2 h
      | recordS m fqn members =>
        cases fqn with
        | none =>
          rw [parseInputType] at h
          simp at h
        | some f =>
          rw [parseInputType] at h
          split at h
          · rename_i hc
            exact schemaExt_of_eq (Except.ok.inj h).symm
          · rename_i hc
            simp only [] at h
            split at h
            · simp at h
            · rename_i st3 heqL
              split at h
              · simp at h
              · rename_i lines heqLines
                simp only [wfNames, Bool.and_eq_true] at hwf
                have hident : identOnly f = true := hwf.1.2
                have hmem : f ∉ st.seenDataTypes := by simpa using hc
                have hbd : ("input " ++ f ++ " \x7b\n"
                      ++ String.intercalate "\n" lines ++ "\n\x7d").data
                    = "input ".data ++ (f.data ++ (' ' :: ('\x7b' :: '\n' ::
                      ((String.intercalate "\n" lines).data ++ "\n\x7d".data)))) := by
                  have hsp : ∀ W : List Char,
                      (" \x7b\n").data ++ W = ' ' :: '\x7b' :: '\n' :: W :=
                    fun _ => rfl
                  simp only [String.data_append, List.append_assoc, hsp]
                  rfl
                refine schemaExt_trans (schemaExt_input st st3 f _ hident hmem
                    (ihITL _ _ _ (wfNamesList_map_members members hwf.2) heqL) ?_)
                  (schemaExt_of_eq (Except.ok.inj h).symm)
                intro g hg
                exact isBlockFor_input_block g f _ _ hbd hg hident
      | unionS m fqn items =>
        rw [parseInputType] at h
        split at h
        · simp at h
        · simp only [wfNames, Bool.and_eq_true] at hwf
          exact ihITL items st st2 hwf.2 h
      | enumS m fqn values =>
        rw [parseInputType] at h
        exact ihT _ st st2 hwf h
    · -- parseInputTypeList
      intro shapes st st2 hwf h
      cases shapes with
      | nil =>
        rw [parseInputTypeList] at h
        exact schemaExt_of_eq (Except.ok.inj h).symm
      | cons s ss =>
        rw [parseInputTypeList] at h
        split at h
        · simp at h
        · rename_i st1 heqS
          simp only [wfNamesList, Bool.and_eq_true] at hwf
          exact schemaExt_trans (ihIT s st st1 hwf.1 heqS) (ihITL ss st1 st2 hwf.2 h)

/-- **C5**: for every record/enum/union type reachable from a schema root, the
synthesizer emits exactly one SDL block per distinct FQN, no matter how many fields
or paths reference that type.  Formally: a successful `parseType` run from the empty
state over a well-formed index yields a duplicate-free seen set, exactly one block
declaring each seen FQN, no block for any unseen identifier, one block per seen FQN
in total — and re-parsing any record whose FQN is already seen changes nothing. -/
theorem schema_fqn_dedup (fuel : Nat) (index : List (String × TypeSpec)) (shape : Shape)
    (st2 : SchemaState) (hidx : wfIndex index = true) (hwf : wfNames shape = true)
    (h : parseType fuel index shape {} = .ok st2) :
    st2.seenDataTypes.Nodup
      ∧ (∀ f ∈ st2.seenDataTypes, st2.blocks.countP (isBlockFor f) = 1)
      ∧ st2.blocks.length = st2.seenDataTypes.length
      ∧ (∀ f, f ∉ st2.seenDataTypes → identOnly f = true →
          st2.blocks.countP (isBlockFor f) = 0)
      ∧ (∀ (fuel2 : Nat) (m : ShapeMeta) (members : List (String × Shape)) (f : String),
          f ∈ st2.seenDataTypes →
          parseType (fuel2 + 1) index (.recordS m (some f) members) st2 = .ok st2) := by
  obtain ⟨sext, bext, hseen, hblk, hnd, hfresh, hlen, hcnt⟩ :=
    (schemaExt_invariant index hidx fuel).1 shape {} st2 hwf h
  have hseen2 : st2.seenDataTypes = [] ++ sext := hseen
  have hblk2 : st2.blocks = [] ++ bext := hblk
  rw [List.nil_append] at hseen2 hblk2
  refine ⟨?_, ?_, ?_, ?_, ?_⟩
  · rw [hseen2]; exact hnd
  · intro f hf
    rw [hseen2] at hf
    rw [hblk2, hcnt f ((hfresh f hf).2), if_pos hf]
  · rw [hseen2, hblk2, hlen]
  · intro f hf hident
    rw [hseen2] at hf
    rw [hblk2, hcnt f hident, if_neg hf]
  · intro fuel2 m members f hf
    have hc : st2.seenDataTypes.contains f = true := by simpa using hf
    simp [parseType, hc]
    intro hnot
    exact absurd hf hnot

/-- Witness for `schema_fqn_dedup`: a `Query` record with two fields of the same
`Post` type synthesizes exactly one `Post` block (and one `Query` block). -/
theorem schema_fqn_dedup_witness :
    wfIndex demoIndex = true ∧ wfNames demoQuery = true
      ∧ (demoSchema.seenDataTypes.Nodup
        ∧ (∀ f ∈ demoSchema.seenDataTypes, demoSchema.blocks.countP (isBlockFor f) = 1)
        ∧ demoSchema.blocks.length = demoSchema.seenDataTypes.length
        ∧ (∀ f, f ∉ demoSchema.seenDataTypes → identOnly f = true →
            demoSchema.blocks.countP (isBlockFor f) = 0)
        ∧ (∀ (fuel2 : Nat) (m : ShapeMeta) (members : List (String × Shape)) (f : String),
            f ∈ demoSchema.seenDataTypes →
            parseType (fuel2 + 1) demoIndex (.recordS m (some f) members) demoSchema
              = .ok demoSchema)) :=
  ⟨by decide, by decide,
   schema_fqn_dedup 12 demoIndex demoQuery demoSchema (by decide) (by decide) (by rfl)⟩

end Punchcard
